import Mathlib

/-!
Shallow embedding of the photo-mcp-server core (src/core/image_cache.rs,
src/core/exif.rs, src/core/zip.rs) and proofs about its specification.

Rust `String` values are modelled as `List Char` (`RStr`).  Machine integers
`u32`/`usize` are modelled as `Nat` with explicit bounds where the code's
parse functions check overflow.  `f32` values are modelled as exact rationals
(`ℚ`): the finite decimal fragment of Rust float parsing is embedded, while
`inf`/`nan` spellings and binary rounding are outside the model.  Fallible
Rust functions returning `Result<T, PhotoInsightError>` become
`Except RStr T`, carrying the error message.
-/

/-- Rust `String`, modelled as a list of characters. -/
abbrev RStr := List Char

deriving instance DecidableEq for Except

namespace PhotoMcp

/-! ## Decimal parsing and printing (models of Rust `str::parse` / `format!`) -/

/-- Value of a list of decimal digit characters, most significant first
(accumulator form, mirroring how a decimal literal is read). -/
def charsToNat (cs : RStr) : Nat :=
  cs.foldl (fun a c => 10 * a + (c.toNat - 48)) 0

/-- Shared body of the unsigned-integer parsers: one or more ASCII digits,
with an overflow bound (`2^32` for `u32`, `2^64` for `usize`). -/
def parseDigitsBounded (bound : Nat) (digits : RStr) : Option Nat :=
  if digits = [] then none
  else if digits.all Char.isDigit then
    if charsToNat digits < bound then some (charsToNat digits) else none
  else none

/-- Model of Rust `str::parse::<usize>()`: an optional leading `+`, then one
or more ASCII digits, rejecting values that overflow 64-bit `usize`. -/
def parseUsize (s : RStr) : Option Nat :=
  parseDigitsBounded (2 ^ 64) (if s.head? = some '+' then s.tail else s)

/-- Model of Rust `str::parse::<u32>()`: same grammar with the 32-bit bound. -/
def parseU32 (s : RStr) : Option Nat :=
  parseDigitsBounded (2 ^ 32) (if s.head? = some '+' then s.tail else s)

/-- Structural (fuel-based) digit printer: digits of `n`, most significant
first, for `n ≤ fuel`. -/
def natReprAux : Nat → Nat → List Char
  | 0, _ => []
  | fuel + 1, n =>
    if n = 0 then [] else natReprAux fuel (n / 10) ++ [Nat.digitChar (n % 10)]

/-- Decimal representation of a natural number (model of Rust `{}` formatting
for unsigned integers). -/
def natRepr (n : Nat) : RStr :=
  if n = 0 then ['0'] else natReprAux n n

theorem natReprAux_eq (fuel : Nat) : ∀ n, n ≤ fuel →
    natReprAux fuel n = (Nat.digits 10 n).reverse.map Nat.digitChar := by
  induction fuel with
  | zero =>
    intro n h
    have hn : n = 0 := Nat.le_zero.mp h
    subst hn
    simp [natReprAux]
  | succ fuel ih =>
    intro n h
    by_cases hn : n = 0
    · subst hn
      simp [natReprAux]
    · rw [natReprAux, if_neg hn]
      have hdiv : n / 10 < n := Nat.div_lt_self (Nat.pos_of_ne_zero hn) (by norm_num)
      rw [ih (n / 10) (by omega)]
      rw [Nat.digits_def' (by norm_num : 1 < 10) (Nat.pos_of_ne_zero hn)]
      simp

theorem natRepr_eq_digits (n : Nat) :
    natRepr n = if n = 0 then ['0'] else (Nat.digits 10 n).reverse.map Nat.digitChar := by
  unfold natRepr
  by_cases hn : n = 0
  · rw [if_pos hn, if_pos hn]
  · rw [if_neg hn, if_neg hn, natReprAux_eq n n le_rfl]

theorem charsToNat_snoc (a : RStr) (c : Char) :
    charsToNat (a ++ [c]) = 10 * charsToNat a + (c.toNat - 48) := by
  simp [charsToNat, List.foldl_append]

theorem charsToNat_append (a b : RStr) :
    charsToNat (a ++ b) = charsToNat a * 10 ^ b.length + charsToNat b := by
  induction b using List.reverseRecOn with
  | nil => simp [charsToNat]
  | append_singleton b c ih =>
    rw [← List.append_assoc, charsToNat_snoc, charsToNat_snoc, ih,
      List.length_append, List.length_singleton, pow_add]
    ring

theorem charsToNat_digits (ds : List Nat) (h : ∀ d ∈ ds, d < 10) :
    charsToNat (ds.reverse.map Nat.digitChar) = Nat.ofDigits 10 ds := by
  induction ds with
  | nil => simp [charsToNat]
  | cons d ds ih =>
    have hd : d < 10 := h d (by simp)
    have hds : ∀ x ∈ ds, x < 10 := fun x hx => h x (by simp [hx])
    simp only [List.reverse_cons, List.map_append, List.map_cons, List.map_nil]
    rw [charsToNat_append, ih hds]
    have hval : (Nat.digitChar d).toNat - 48 = d := by
      interval_cases d <;> rfl
    simp only [charsToNat, List.foldl_cons, List.foldl_nil, List.length_cons,
      List.length_nil, Nat.ofDigits_cons, hval]
    ring

theorem digitChar_isDigit (d : Nat) (h : d < 10) : (Nat.digitChar d).isDigit = true := by
  interval_cases d <;> rfl

theorem digitChar_ne_bar (d : Nat) (h : d < 10) : Nat.digitChar d ≠ '|' := by
  interval_cases d <;> decide

theorem natRepr_all_digits (n : Nat) : (natRepr n).all Char.isDigit = true := by
  rw [natRepr_eq_digits]
  split
  · rfl
  · rw [List.all_eq_true]
    intro c hc
    simp only [List.mem_map, List.mem_reverse] at hc
    obtain ⟨d, hd, rfl⟩ := hc
    exact digitChar_isDigit d (Nat.digits_lt_base (by norm_num) hd)

theorem natRepr_ne_nil (n : Nat) : natRepr n ≠ [] := by
  rw [natRepr_eq_digits]
  split
  · simp
  · next h =>
    intro hnil
    rw [List.map_eq_nil_iff, List.reverse_eq_nil_iff] at hnil
    exact h (Nat.digits_eq_nil_iff_eq_zero.mp hnil)

theorem natRepr_no_bar (n : Nat) : '|' ∉ natRepr n := by
  rw [natRepr_eq_digits]
  split
  · decide
  · intro h
    simp only [List.mem_map, List.mem_reverse] at h
    obtain ⟨d, hd, hcd⟩ := h
    exact digitChar_ne_bar d (Nat.digits_lt_base (by norm_num) hd) hcd

theorem charsToNat_natRepr (n : Nat) : charsToNat (natRepr n) = n := by
  rw [natRepr_eq_digits]
  split
  · next h => subst h; rfl
  · rw [charsToNat_digits _ (fun d hd => Nat.digits_lt_base (by norm_num) hd)]
    exact Nat.ofDigits_digits 10 n

theorem natRepr_head_not_plus (n : Nat) : (natRepr n).head? ≠ some '+' := by
  cases hr : natRepr n with
  | nil => simp
  | cons c rest =>
    have hc : c.isDigit = true := by
      have hall := natRepr_all_digits n
      rw [hr, List.all_cons, Bool.and_eq_true] at hall
      exact hall.1
    simp only [List.head?_cons, Option.some.injEq]
    intro he
    have hce : c = '+' := Option.some.inj he
    rw [hce] at hc
    exact absurd hc (by decide)

theorem parseUsize_natRepr (n : Nat) (h : n < 2 ^ 64) :
    parseUsize (natRepr n) = some n := by
  unfold parseUsize parseDigitsBounded
  rw [if_neg (natRepr_head_not_plus n), if_neg (natRepr_ne_nil n),
    if_pos (natRepr_all_digits n), charsToNat_natRepr, if_pos h]

/-! ## Composite cache keys (src/core/image_cache.rs, `PhotoInfo`) -/

/-- Prepend a character to the first fragment of a split result. -/
def consHead (c : Char) : List RStr → List RStr
  | [] => [[c]]
  | h :: t => (c :: h) :: t

/-- Model of Rust `str::split('|')`: splits into the (possibly empty)
fragments between `|` characters; the empty string yields `[[]]`. -/
def splitOnBar : RStr → List RStr
  | [] => [[]]
  | c :: rest =>
    if c = '|' then [] :: splitOnBar rest else consHead c (splitOnBar rest)

/-- Identity of a single photo: the archive file name, the entry name inside
the archive, and the entry index (struct `PhotoInfo`). -/
structure PhotoInfo where
  zip_file_name : RStr
  photo_file_name : RStr
  photo_index_in_zip : Nat
deriving DecidableEq, Repr

/-- Model of `PhotoInfo::serialize_as_key`: `format!("{}|{}|{}", zip, photo, index)`. -/
def PhotoInfo.serialize_as_key (p : PhotoInfo) : RStr :=
  p.zip_file_name ++ ('|' :: (p.photo_file_name ++ ('|' :: natRepr p.photo_index_in_zip)))

/-- Model of `PhotoInfo::deserialize_from_key`: split on `|`, require exactly three
parts, parse the third as `usize`. -/
def PhotoInfo.deserialize_from_key (key : RStr) : Except RStr PhotoInfo :=
  match splitOnBar key with
  | [zipf, image, idx] =>
    match parseUsize idx with
    | some n => .ok ⟨zipf, image, n⟩
    | none => .error ("invalid digit found in string").data
  | _ => .error (("cannot deserialize PhotoInfo from ").data ++ key)

theorem splitOnBar_ne_nil (s : RStr) : splitOnBar s ≠ [] := by
  cases s with
  | nil => simp [splitOnBar]
  | cons c rest =>
    simp only [splitOnBar]
    by_cases hc : c = '|'
    · simp [hc]
    · rw [if_neg hc]
      cases splitOnBar rest <;> simp [consHead]

theorem splitOnBar_no_bar (s : RStr) (h : '|' ∉ s) : splitOnBar s = [s] := by
  induction s with
  | nil => rfl
  | cons c rest ih =>
    have hc : c ≠ '|' := fun hcc => h (by simp [hcc])
    have hr : '|' ∉ rest := fun hm => h (by simp [hm])
    simp [splitOnBar, if_neg hc, ih hr, consHead]

theorem splitOnBar_append_bar (a b : RStr) (h : '|' ∉ a) :
    splitOnBar (a ++ ('|' :: b)) = a :: splitOnBar b := by
  induction a with
  | nil => simp [splitOnBar]
  | cons c rest ih =>
    have hc : c ≠ '|' := fun hcc => h (by simp [hcc])
    have hr : '|' ∉ rest := fun hm => h (by simp [hm])
    simp only [List.cons_append, splitOnBar, if_neg hc, List.append_eq, ih hr, consHead]

theorem consHead_length (c : Char) (l : List RStr) (h : l ≠ []) :
    (consHead c l).length = l.length := by
  cases l with
  | nil => exact absurd rfl h
  | cons x t => rfl

theorem splitOnBar_length (s : RStr) :
    (splitOnBar s).length = 1 + s.count '|' := by
  induction s with
  | nil => rfl
  | cons c rest ih =>
    by_cases hc : c = '|'
    · subst hc
      simp only [splitOnBar, if_pos rfl, List.length_cons, ih, List.count_cons]
      simp
      omega
    · simp only [splitOnBar, if_neg hc,
        consHead_length _ _ (splitOnBar_ne_nil rest), ih, List.count_cons]
      have hbc : ('|' == c) = false := by
        simp only [beq_eq_false_iff_ne, ne_eq]
        exact fun he => hc he.symm
      simp [hbc]
      exact hc

/-- Round trip of the composite key when neither name contains the
delimiter: the serialized key deserializes back to the same `PhotoInfo`. -/
theorem deserialize_serialize (p : PhotoInfo)
    (hz : '|' ∉ p.zip_file_name) (hp : '|' ∉ p.photo_file_name)
    (hidx : p.photo_index_in_zip < 2 ^ 64) :
    PhotoInfo.deserialize_from_key (PhotoInfo.serialize_as_key p) = .ok p := by
  unfold PhotoInfo.serialize_as_key PhotoInfo.deserialize_from_key
  rw [splitOnBar_append_bar _ _ hz, splitOnBar_append_bar _ _ hp,
    splitOnBar_no_bar _ (natRepr_no_bar _)]
  simp [parseUsize_natRepr _ hidx]

/-- When either name contains the delimiter, the serialized key splits into
more than three parts and deserialization fails. -/
theorem deserialize_serialize_bar (p : PhotoInfo)
    (h : '|' ∈ p.zip_file_name ∨ '|' ∈ p.photo_file_name) :
    ∃ msg, PhotoInfo.deserialize_from_key (PhotoInfo.serialize_as_key p) = .error msg := by
  have hcount : 3 ≤ (PhotoInfo.serialize_as_key p).count '|' := by
    unfold PhotoInfo.serialize_as_key
    rw [List.count_append, List.count_cons, List.count_append, List.count_cons]
    have hz : 1 ≤ p.zip_file_name.count '|' + p.photo_file_name.count '|' := by
      rcases h with h | h
      · have := List.count_pos_iff.mpr h
        omega
      · have := List.count_pos_iff.mpr h
        omega
    simp only [beq_self_eq_true, if_pos]
    omega
  have hlen : 4 ≤ (splitOnBar (PhotoInfo.serialize_as_key p)).length := by
    rw [splitOnBar_length]
    omega
  obtain ⟨a, b, c, d, t, hs⟩ : ∃ a b c d t,
      splitOnBar (PhotoInfo.serialize_as_key p) = a :: b :: c :: d :: t := by
    rcases hl : splitOnBar (PhotoInfo.serialize_as_key p) with _ | ⟨a, _ | ⟨b, _ | ⟨c, _ | ⟨d, t⟩⟩⟩⟩ <;>
      rw [hl] at hlen
    · simp at hlen
    · simp at hlen
    · simp at hlen
    · simp at hlen
    · exact ⟨a, b, c, d, t, rfl⟩
  unfold PhotoInfo.deserialize_from_key
  rw [hs]
  exact ⟨_, rfl⟩

/-! ## EXIF metadata records and the typed tag query engine (src/core/exif.rs) -/

/-- Per-photo metadata record (struct `ExifInfo`). -/
structure ExifInfo where
  year : Nat
  month : Nat
  model : RStr
  width : Nat
  height : Nat
  date_time : RStr
  aperture : RStr
  shutter_speed : RStr
  iso : RStr
  focal_len : RStr
  lens : RStr
deriving DecidableEq, Repr

/-- Model of Rust `str::to_lowercase()` on the ASCII fragment (the full
Unicode case mapping of the library is outside the model). -/
def lowerS (s : RStr) : RStr := s.map Char.toLower

/-- An `f32` value originating from parsed text, modelled as an exact
fraction `num / 10 ^ exp10` (decimal mantissa with a power-of-ten
denominator).  Comparisons are by cross multiplication, i.e. exact rational
comparison; binary rounding of `f32` is outside the model. -/
structure Frac where
  num : Int
  exp10 : Nat
deriving DecidableEq, Repr

/-- The denominator of a parsed float. -/
def Frac.den (f : Frac) : Nat := 10 ^ f.exp10

/-- The rational value of a parsed float. -/
def Frac.val (f : Frac) : ℚ := (f.num : ℚ) / (f.den : ℚ)

/-- Test `|a - b| < EPSILON` by cross multiplication (the `==` comparison of the
float branch). -/
def fracNearEq (a b : Frac) : Bool :=
  decide ((a.num * b.den - b.num * a.den).natAbs * 2 ^ 23 < a.den * b.den)

/-- Test `|a - b| >= EPSILON` by cross multiplication (the `!=` comparison). -/
def fracFarNe (a b : Frac) : Bool :=
  decide (a.den * b.den ≤ (a.num * b.den - b.num * a.den).natAbs * 2 ^ 23)

/-- Test `a < b` by cross multiplication. -/
def fracLt (a b : Frac) : Bool :=
  decide (a.num * b.den < b.num * a.den)

/-- An `f32` value as produced by `str::parse::<f32>()`: a finite decimal
value, an infinity, or NaN (Rust's parse accepts the `inf`, `infinity` and
`nan` spellings, case-insensitively and optionally signed). -/
inductive FloatVal where
  | finite (f : Frac)
  | posInf
  | negInf
  | nan
deriving DecidableEq, Repr

/-- IEEE comparison `a < b`: false whenever either operand is NaN. -/
def fvLt : FloatVal → FloatVal → Bool
  | .nan, _ => false
  | _, .nan => false
  | .finite a, .finite b => fracLt a b
  | .negInf, .negInf => false
  | .negInf, _ => true
  | _, .negInf => false
  | .posInf, _ => false
  | .finite _, .posInf => true

/-- IEEE comparison `a <= b`: false whenever either operand is NaN. -/
def fvLe : FloatVal → FloatVal → Bool
  | .nan, _ => false
  | _, .nan => false
  | .finite a, .finite b => !(fracLt b a)
  | .negInf, _ => true
  | _, .negInf => false
  | _, .posInf => true
  | .posInf, .finite _ => false

/-- The float `==` test `(a - b).abs() < EPSILON`: false whenever either
operand is NaN (the subtraction is NaN), false when an infinity is involved
(`|±inf| < eps` is false, and `inf - inf` is NaN); finite differences are
compared exactly. -/
def fvNearEq : FloatVal → FloatVal → Bool
  | .finite a, .finite b => fracNearEq a b
  | _, _ => false

/-- The float `!=` test `(a - b).abs() >= EPSILON`: false whenever either
operand is NaN or both are the same infinity (NaN subtraction); true when
exactly one infinity is involved or the infinities differ. -/
def fvFarNe : FloatVal → FloatVal → Bool
  | .finite a, .finite b => fracFarNe a b
  | .nan, _ => false
  | _, .nan => false
  | .posInf, .posInf => false
  | .negInf, .negInf => false
  | _, _ => true

/-- Model of Rust `str::parse::<f32>()`: optional sign, then either one of
the case-insensitive special spellings `inf`/`infinity`/`nan`, or decimal
digits with optional fraction and decimal exponent.  Finite values are kept
as exact decimal fractions: the binary rounding of `f32` is outside the
model. -/
def parseF32 (s : RStr) : Option FloatVal :=
  let neg : Bool := s.head? = some '-'
  let s1 : RStr := if s.head? = some '-' ∨ s.head? = some '+' then s.tail else s
  if lowerS s1 = ("inf").data ∨ lowerS s1 = ("infinity").data then
    some (if neg then .negInf else .posInf)
  else if lowerS s1 = ("nan").data then some .nan
  else
    let intPart := s1.takeWhile Char.isDigit
    let rest1 := s1.dropWhile Char.isDigit
    let fracPart : RStr :=
      if rest1.head? = some '.' then rest1.tail.takeWhile Char.isDigit else []
    let rest2 : RStr :=
      if rest1.head? = some '.' then rest1.tail.dropWhile Char.isDigit else rest1
    if intPart = [] ∧ fracPart = [] then none
    else
      let num0 : Int := (charsToNat intPart * 10 ^ fracPart.length + charsToNat fracPart : Nat)
      let num1 : Int := if neg then -num0 else num0
      match rest2 with
      | [] => some (.finite ⟨num1, fracPart.length⟩)
      | e :: rest3 =>
        if e = 'e' ∨ e = 'E' then
          let eneg : Bool := rest3.head? = some '-'
          let rest4 : RStr :=
            if rest3.head? = some '-' ∨ rest3.head? = some '+' then rest3.tail else rest3
          if rest4 ≠ [] ∧ rest4.all Char.isDigit then
            if eneg then some (.finite ⟨num1, fracPart.length + charsToNat rest4⟩)
            else some (.finite ⟨num1 * 10 ^ charsToNat rest4, fracPart.length⟩)
          else none
        else none

/-- Typed value of an EXIF tag (enum `ExifTagValue`). -/
inductive ExifTagValue where
  | string (s : RStr)
  | number (n : Nat)
  | float (f : FloatVal)
deriving DecidableEq, Repr

/-- Substring containment, model of Rust `str::contains(&str)`. -/
def containsSub (s sub : RStr) : Bool :=
  if sub.isPrefixOf s then true
  else
    match s with
    | [] => false
    | _ :: t => containsSub t sub

/-- Model of `ExifInfo::match_exif_tag_value`: type-directed comparison of a tag value
against a query literal.  The Rust `match` on the operator string is modelled
as an `if` chain over the same literals. -/
def match_exif_tag_value (value : ExifTagValue) (tag_value : RStr) (op : RStr) :
    Except RStr Bool :=
  match value with
  | .string s =>
    if op = ("==").data then .ok (lowerS s == lowerS tag_value)
    else if op = ("!=").data then .ok (lowerS s != lowerS tag_value)
    else if op = ("contains").data then .ok (containsSub (lowerS s) (lowerS tag_value))
    else if op = ("starts_with").data then .ok ((lowerS tag_value).isPrefixOf (lowerS s))
    else if op = ("ends_with").data then .ok ((lowerS tag_value).isSuffixOf (lowerS s))
    else .error (("Invalid operator for string: ").data ++ op)
  | .number n =>
    match parseU32 tag_value with
    | none => .error ("Invalid number value for comparison").data
    | some t =>
      if op = ("==").data then .ok (n == t)
      else if op = ("!=").data then .ok (n != t)
      else if op = (">").data then .ok (decide (n > t))
      else if op = ("<").data then .ok (decide (n < t))
      else if op = (">=").data then .ok (decide (n ≥ t))
      else if op = ("<=").data then .ok (decide (n ≤ t))
      else .error (("Invalid operator for number: ").data ++ op)
  | .float f =>
    match parseF32 tag_value with
    | none => .error ("Invalid float value for comparison").data
    | some t =>
      if op = ("==").data then .ok (fvNearEq f t)
      else if op = ("!=").data then .ok (fvFarNe f t)
      else if op = (">").data then .ok (fvLt t f)
      else if op = ("<").data then .ok (fvLt f t)
      else if op = (">=").data then .ok (fvLe t f)
      else if op = ("<=").data then .ok (fvLe f t)
      else .error (("Invalid operator for float: ").data ++ op)

/-- Model of `ExifInfo::extract_tag_value`: classify a tag name and extract the typed
field value, parsing float-typed fields from their stored text. -/
def extract_tag_value (e : ExifInfo) (tag_name : RStr) : Except RStr ExifTagValue :=
  if tag_name = ("model").data ∨ tag_name = ("lens").data then
    if tag_name = ("model").data then .ok (.string e.model)
    else if tag_name = ("lens").data then .ok (.string e.lens)
    else .error ("Invalid tag name").data
  else if tag_name = ("aperture").data ∨ tag_name = ("shutter_speed").data ∨
      tag_name = ("iso").data ∨ tag_name = ("focal_len").data then
    let val : RStr :=
      if tag_name = ("aperture").data then e.aperture
      else if tag_name = ("shutter_speed").data then e.shutter_speed
      else if tag_name = ("iso").data then e.iso
      else if tag_name = ("focal_len").data then e.focal_len
      else []
    match parseF32 val with
    | none => .error ("Invalid float value").data
    | some f => .ok (.float f)
  else if tag_name = ("width").data ∨ tag_name = ("height").data ∨
      tag_name = ("year").data ∨ tag_name = ("month").data then
    let val : Nat :=
      if tag_name = ("width").data then e.width
      else if tag_name = ("height").data then e.height
      else if tag_name = ("year").data then e.year
      else if tag_name = ("month").data then e.month
      else 0
    .ok (.number val)
  else .error (("Invalid tag name: ").data ++ tag_name)

/-- Model of `ExifInfo::matches_query`: extract the typed tag value, then compare. -/
def matches_query (e : ExifInfo) (tag_name tag_value op : RStr) : Except RStr Bool :=
  match extract_tag_value e tag_name with
  | .error msg => .error msg
  | .ok v => match_exif_tag_value v tag_value op

theorem parse_float_match_ok (s : RStr) (f : FloatVal)
    (h : (match parseF32 s with
          | none => (Except.error (("Invalid float value").data) : Except RStr ExifTagValue)
          | some g => Except.ok (ExifTagValue.float g)) = Except.ok (.float f)) :
    parseF32 s = some f := by
  split at h
  · simp at h
  · next g heq =>
    simp only [Except.ok.injEq, ExifTagValue.float.injEq] at h
    rw [heq, h]

theorem extract_tag_value_float (e : ExifInfo) (tag : RStr) (f : FloatVal)
    (h : extract_tag_value e tag = .ok (.float f)) :
    ∃ s, parseF32 s = some f := by
  unfold extract_tag_value at h
  split at h
  · split at h
    · simp at h
    · split at h
      · simp at h
      · simp at h
  · split at h
    · split at h
      · exact ⟨_, parse_float_match_ok _ _ h⟩
      · split at h
        · exact ⟨_, parse_float_match_ok _ _ h⟩
        · split at h
          · exact ⟨_, parse_float_match_ok _ _ h⟩
          · split at h
            · exact ⟨_, parse_float_match_ok _ _ h⟩
            · exact ⟨_, parse_float_match_ok [] f (by exact h)⟩
    · split at h
      · simp at h
      · simp at h

/-- A concrete metadata record used by the closed instances below. -/
def exifA : ExifInfo :=
  ⟨2021, 5, ("\"X100\"").data, 640, 480, ("\"2021-05-01 10:00:00\"").data,
   ("2.8").data, ("250").data, ("100").data, ("35").data, ("\"unknown\"").data⟩

/-- Claim C5: evaluating a relational operator (`>`, `<`, `>=`, `<=`) on a
string-typed tag (`model` or `lens`) returns an error naming the operator,
never a boolean; and the five allowed string comparisons depend only on the
lowercased operands, i.e. they are case-insensitive. -/
theorem c5_string_relational (r : ExifInfo) (tag q op : RStr)
    (htag : tag = ("model").data ∨ tag = ("lens").data)
    (hop : op = (">").data ∨ op = ("<").data ∨ op = (">=").data ∨ op = ("<=").data) :
    matches_query r tag q op = .error ((("Invalid operator for string: ").data ++ op))
    ∧ ∀ op2 s s2 v v2,
      (op2 = ("==").data ∨ op2 = ("!=").data ∨ op2 = ("contains").data ∨
       op2 = ("starts_with").data ∨ op2 = ("ends_with").data) →
      lowerS s = lowerS s2 → lowerS v = lowerS v2 →
      match_exif_tag_value (.string s) v op2 = match_exif_tag_value (.string s2) v2 op2 := by
  constructor
  · rcases htag with h | h <;> subst h <;> rcases hop with h | h | h | h <;> subst h <;> rfl
  · intro op2 s s2 v v2 hop2 hs hv
    rcases hop2 with h | h | h | h | h <;> subst h <;>
      simp [match_exif_tag_value, hs, hv]

/-- Witness for the claim-C5 theorem at tag `model`, operator `>`. -/
theorem c5_string_relational_witness :
    ((("model").data : RStr) = ("model").data ∨ (("model").data : RStr) = ("lens").data) ∧
    matches_query exifA ("model").data ("x").data (">").data
      = .error ((("Invalid operator for string: ").data ++ ((">").data))) :=
  ⟨Or.inl rfl, (c5_string_relational exifA _ _ _ (Or.inl rfl) (Or.inl rfl)).1⟩

/-- The EXIF tags queried by `extract_exif_info` (the black-box tag decoder
is modelled as a table from these tags to their display strings). -/
inductive Tag where
  | Model
  | ImageWidth
  | PixelXDimension
  | ImageLength
  | PixelYDimension
  | DateTimeOriginal
  | DateTime
  | DateTimeDigitized
  | FNumber
  | ApertureValue
  | ShutterSpeedValue
  | ExposureTime
  | ISOSpeed
  | PhotographicSensitivity
  | FocalLengthIn35mmFilm
  | FocalLength
  | LensModel
  | LensSpecification
  | LensMake
  | MakerNote
deriving DecidableEq, Repr

/-- The decoded EXIF container: display values of the PRIMARY-IFD fields
(model of the `exif::Exif` tag table, a black-box library). -/
abbrev ExifTable := List (Tag × RStr)

/-- Model of `exif.get_field(t, PRIMARY)` followed by `display_value().to_string()`. -/
def lookupTag (table : ExifTable) (t : Tag) : Option RStr :=
  (table.find? (fun p => p.1 == t)).map (·.2)

/-- Rust `val.replace("\"", "").replace(",", "")`. -/
def removeQuotesCommas (s : RStr) : RStr :=
  s.filter (fun c => !(c == '"') && !(c == ','))

/-- Rust `str::trim()` on the ASCII-whitespace fragment. -/
def trimS (s : RStr) : RStr :=
  ((s.dropWhile Char.isWhitespace).reverse.dropWhile Char.isWhitespace).reverse

/-- Model of `extract_tag`: first present candidate tag wins; numeric fields fall back
to `"0"` when the text does not parse as a float; string fields are stripped
of quotes/commas, trimmed, and re-wrapped in quotes; missing tags default to
`"0"` / `"\"unknown\""`. -/
def extract_tag (table : ExifTable) (tags : List Tag) (numeric : Bool) : RStr :=
  match tags with
  | [] => if numeric then ("0").data else ("\"unknown\"").data
  | t :: ts =>
    match lookupTag table t with
    | none => extract_tag table ts numeric
    | some val =>
      if numeric then
        if (parseF32 val).isSome then val else ("0").data
      else
        '"' :: (trimS (removeQuotesCommas val) ++ ['"'])

/-- First present candidate among a tag list (the "chosen source tag"). -/
def chosenTag (table : ExifTable) : List Tag → Option RStr
  | [] => none
  | t :: ts =>
    match lookupTag table t with
    | some v => some v
    | none => chosenTag table ts

/-- Model of Rust `str::split('/')` (same splitting semantics as
`splitOnBar`). -/
def splitOnSlash : RStr → List RStr
  | [] => [[]]
  | c :: rest =>
    if c = '/' then [] :: splitOnSlash rest else consHead c (splitOnSlash rest)

/-- Match of the regex `(\d\d\d\d)-(\d\d)` anchored at the start of `s`,
returning the two capture groups. -/
def try4_2 (s : RStr) : Option (RStr × RStr) :=
  match s with
  | a :: b :: c :: d :: dash :: e :: f :: _ =>
    if a.isDigit ∧ b.isDigit ∧ c.isDigit ∧ d.isDigit ∧ dash = '-' ∧
        e.isDigit ∧ f.isDigit then
      some ([a, b, c, d], [e, f])
    else none
  | _ => none

/-- Model of the regex `^.?(\d\d\d\d)-(\d\d)`: the greedy `.?` consumes one
leading character when the rest matches, otherwise the match is retried at
the start. -/
def matchDate (s : RStr) : Option (RStr × RStr) :=
  match s with
  | [] => none
  | _ :: rest =>
    match try4_2 rest with
    | some g => some g
    | none => try4_2 s

/-- The non-fallible tail of `extract_exif_info`: aperture, shutter speed
(fraction denominator special case), iso, focal length, lens. -/
def finishExif (table : ExifTable) (model : RStr) (width height : Nat)
    (date_time : RStr) (year month : Nat) : ExifInfo :=
  let aperture := extract_tag table [.FNumber, .ApertureValue] true
  let shutter0 := extract_tag table [.ShutterSpeedValue, .ExposureTime] false
  let shutter1 := if shutter0.contains '/' then shutter0
                  else extract_tag table [.ExposureTime] false
  let shutter2 :=
    if shutter1.contains '/' then
      match splitOnSlash shutter1 with
      | [_, y] => y
      | _ => shutter1
    else shutter1
  let shutter3 := shutter2.filter (fun c => !(c == '"'))
  let iso := extract_tag table [.ISOSpeed, .PhotographicSensitivity] true
  let focal_len := extract_tag table [.FocalLengthIn35mmFilm, .FocalLength] true
  let lens := extract_tag table [.LensModel, .LensSpecification, .LensMake] false
  ⟨year, month, model, width, height, date_time, aperture, shutter3, iso, focal_len, lens⟩

/-- Model of `extract_exif_info`: decode the fixed set of output fields from the tag
table.  The decoded-container precondition is the `table` input; the
thumbnail side channel is not modelled. -/
def extract_exif_info (table : ExifTable) : Except RStr ExifInfo :=
  let model := extract_tag table [.Model] false
  let w := extract_tag table [.ImageWidth, .PixelXDimension] true
  let h := extract_tag table [.ImageLength, .PixelYDimension] true
  match parseU32 w with
  | none => .error ("invalid width").data
  | some width =>
    match parseU32 h with
    | none => .error ("invalid height").data
    | some height =>
      let date_time := extract_tag table [.DateTimeOriginal, .DateTime, .DateTimeDigitized] false
      match matchDate date_time with
      | some (ys, ms) =>
        match parseU32 ys with
        | none => .error ("invalid year").data
        | some year =>
          match parseU32 ms with
          | none => .error ("invalid month").data
          | some month => .ok (finishExif table model width height date_time year month)
      | none => .ok (finishExif table model width height date_time 0 0)

theorem isDigit_toNat (c : Char) (h : c.isDigit = true) :
    48 ≤ c.toNat ∧ c.toNat ≤ 57 := by
  simp only [Char.isDigit, Bool.and_eq_true, decide_eq_true_eq] at h
  obtain ⟨h1, h2⟩ := h
  have h1' : (48 : UInt32).toNat ≤ c.val.toNat := h1
  have h2' : c.val.toNat ≤ (57 : UInt32).toNat := h2
  have e1 : (48 : UInt32).toNat = 48 := rfl
  have e2 : (57 : UInt32).toNat = 57 := rfl
  unfold Char.toNat
  omega

theorem isDigit_ne_plus (c : Char) (h : c.isDigit = true) : c ≠ '+' := by
  intro he
  rw [he] at h
  exact absurd h (by decide)

theorem charsToNat_lt_pow (ds : RStr) (hall : ds.all Char.isDigit = true) :
    charsToNat ds < 10 ^ ds.length := by
  induction ds using List.reverseRecOn with
  | nil => simp [charsToNat]
  | append_singleton a c ih =>
    rw [List.all_append, Bool.and_eq_true] at hall
    have hc : c.isDigit = true := by
      have := hall.2
      rw [List.all_cons] at this
      simp at this
      exact this
    have hcb := isDigit_toNat c hc
    rw [charsToNat_snoc, List.length_append, List.length_singleton, pow_add]
    have := ih hall.1
    simp only [pow_one]
    omega

theorem parseU32_digits (ds : RStr) (hne : ds ≠ []) (hall : ds.all Char.isDigit = true)
    (hv : charsToNat ds < 2 ^ 32) : parseU32 ds = some (charsToNat ds) := by
  unfold parseU32 parseDigitsBounded
  have hplus : ds.head? ≠ some '+' := by
    cases ds with
    | nil => simp
    | cons c t =>
      simp only [List.head?_cons, ne_eq, Option.some.injEq]
      have hc : c.isDigit = true := by
        rw [List.all_cons, Bool.and_eq_true] at hall
        exact hall.1
      exact isDigit_ne_plus c hc
  rw [if_neg hplus, if_neg hne, if_pos hall, if_pos hv]

theorem try4_2_digits (s ys ms : RStr) (h : try4_2 s = some (ys, ms)) :
    ys.length = 4 ∧ ms.length = 2 ∧ ys.all Char.isDigit = true ∧
    ms.all Char.isDigit = true := by
  unfold try4_2 at h
  split at h
  · split at h
    · next hcond =>
      obtain ⟨h1, h2, h3, h4, h5, h6, h7⟩ := hcond
      simp only [Option.some.injEq, Prod.mk.injEq] at h
      obtain ⟨hys, hms⟩ := h
      subst hys
      subst hms
      refine ⟨rfl, rfl, ?_, ?_⟩ <;> simp [h1, h2, h3, h4, h6, h7]
    · simp at h
  · simp at h

theorem matchDate_parse (s ys ms : RStr) (h : matchDate s = some (ys, ms)) :
    parseU32 ys = some (charsToNat ys) ∧ parseU32 ms = some (charsToNat ms) := by
  have hdig : ys.length = 4 ∧ ms.length = 2 ∧ ys.all Char.isDigit = true ∧
      ms.all Char.isDigit = true := by
    unfold matchDate at h
    split at h
    · simp at h
    · split at h
      · next g heq =>
        injection h with h1
        subst h1
        exact try4_2_digits _ _ _ heq
      · exact try4_2_digits _ _ _ h
  obtain ⟨hy4, hm2, hya, hma⟩ := hdig
  have hyne : ys ≠ [] := by intro hx; rw [hx] at hy4; simp at hy4
  have hmne : ms ≠ [] := by intro hx; rw [hx] at hm2; simp at hm2
  have hyb : charsToNat ys < 2 ^ 32 := by
    have := charsToNat_lt_pow ys hya
    rw [hy4] at this
    omega
  have hmb : charsToNat ms < 2 ^ 32 := by
    have := charsToNat_lt_pow ms hma
    rw [hm2] at this
    omega
  exact ⟨parseU32_digits ys hyne hya hyb, parseU32_digits ms hmne hma hmb⟩

/-- A concrete decoded tag table used by the closed instances below. -/
def tableA : ExifTable :=
  [(Tag.ImageWidth, ("640").data), (Tag.ImageLength, ("480").data),
   (Tag.DateTimeOriginal, ("2021-05-01 10:00:00").data),
   (Tag.FNumber, ("2.8").data), (Tag.Model, ("X100").data)]

/-- Claim C4 counterexample: a width tag whose text parses as a float but not
as `u32` (here `1.5`) survives `extract_tag`'s float check and then makes
`extract_exif_info` fail with "invalid width" — so a numeric parse failure
can cause extraction to return an error, contrary to the claim. -/
theorem c4_counterexample :
    (parseF32 (("1.5").data)).isSome = true ∧
    extract_exif_info [(Tag.ImageWidth, ("1.5").data)] = .error (("invalid width").data) := by
  constructor
  · decide
  · decide

/-- Claim C4 (amended): a numeric-typed field whose chosen tag text does not
parse as a float is forced to `"0"`; the only parse failures that make
`extract_exif_info` return an error are the `u32` re-parses of the width and
height fields; when those succeed, extraction succeeds. -/
theorem c4_numeric_parse (table : ExifTable) :
    (∀ tags v, chosenTag table tags = some v → parseF32 v = none →
       extract_tag table tags true = ("0").data)
    ∧ (∀ e, extract_exif_info table = .error e →
        e = ("invalid width").data ∨ e = ("invalid height").data)
    ∧ ((parseU32 (extract_tag table [Tag.ImageWidth, Tag.PixelXDimension] true)).isSome = true →
       (parseU32 (extract_tag table [Tag.ImageLength, Tag.PixelYDimension] true)).isSome = true →
       (extract_exif_info table).isOk = true) := by
  refine ⟨?_, ?_, ?_⟩
  · intro tags
    induction tags with
    | nil => intro v hc; simp [chosenTag] at hc
    | cons t ts ih =>
      intro v hc hp
      unfold chosenTag at hc
      unfold extract_tag
      cases hl : lookupTag table t with
      | none =>
        rw [hl] at hc
        exact ih v hc hp
      | some val =>
        rw [hl] at hc
        injection hc with hval
        subst hval
        simp [extract_tag, hl, hp]
  · intro e h
    simp only [extract_exif_info] at h
    split at h
    · left
      injection h with h1
      exact h1.symm
    · split at h
      · right
        injection h with h1
        exact h1.symm
      · split at h
        · next ys ms heq =>
          obtain ⟨hy, hm⟩ := matchDate_parse _ _ _ heq
          split at h
          · next heq2 => rw [hy] at heq2; simp at heq2
          · split at h
            · next heq3 => rw [hm] at heq3; simp at heq3
            · simp at h
        · simp at h
  · intro h1 h2
    simp only [extract_exif_info]
    split
    · next heq => rw [heq] at h1; simp at h1
    · split
      · next heq => rw [heq] at h2; simp at h2
      · split
        · next ys ms heq =>
          obtain ⟨hy, hm⟩ := matchDate_parse _ _ _ heq
          split
          · next heq2 => rw [hy] at heq2; simp at heq2
          · split
            · next heq3 => rw [hm] at heq3; simp at heq3
            · rfl
        · rfl

/-- Witness for the claim-C4 theorem at a concrete decoded table. -/
theorem c4_numeric_parse_witness :
    (parseU32 (extract_tag tableA [Tag.ImageWidth, Tag.PixelXDimension] true)).isSome = true ∧
    (parseU32 (extract_tag tableA [Tag.ImageLength, Tag.PixelYDimension] true)).isSome = true ∧
    (extract_exif_info tableA).isOk = true :=
  ⟨by decide, by decide, (c4_numeric_parse tableA).2.2 (by decide) (by decide)⟩

/-! ## Photo cache build and merge (src/core/image_cache.rs, `PhotoCache`) -/

/-- The type `ByYearMonth`: `HashMap<u32, HashMap<u32, Vec<PhotoInfo>>>`, modelled as
nested partial maps. -/
def YM := Nat → Option (Nat → Option (List PhotoInfo))

/-- The empty temporal index. -/
def ymEmpty : YM := fun _ => none

/-- The bucket at `(y, m)` (empty when the year or month key is absent). -/
def ymGet (ym : YM) (y m : Nat) : List PhotoInfo :=
  ((ym y).bind (fun mm => mm m)).getD []

/-- Model of `entry(year).or_insert_with(HashMap::new).entry(month)
.or_insert_with(Vec::new).push(p)`. -/
def ymInsert (ym : YM) (y m : Nat) (p : PhotoInfo) : YM := fun y' =>
  if y' = y then
    some (fun m' =>
      if m' = m then some (ymGet ym y m ++ [p])
      else ((ym y).getD (fun _ => none)) m')
  else ym y'

/-- The per-archive `by_year_month` fold over the loaded EXIF map. -/
def groupYM (l : List (PhotoInfo × ExifInfo)) : YM :=
  l.foldl (fun acc pe => ymInsert acc pe.2.year pe.2.month pe.1) ymEmpty

/-- The year-by-year, month-by-month list-extend merge of a per-archive
index into the global one. -/
def mergeYM (acc part : YM) : YM := fun y =>
  match part y with
  | none => acc y
  | some pm =>
    some (fun m =>
      match pm m with
      | none => (acc y).bind (fun am => am m)
      | some infos => some ((((acc y).bind (fun am => am m)).getD []) ++ infos))

theorem ymGet_insert (ym : YM) (y m y' m' : Nat) (p : PhotoInfo) :
    ymGet (ymInsert ym y m p) y' m' =
      ymGet ym y' m' ++ (if y' = y ∧ m' = m then [p] else []) := by
  by_cases hy : y' = y
  · subst hy
    by_cases hm : m' = m
    · subst hm
      simp [ymInsert, ymGet]
    · cases hym : ym y' <;> simp [ymInsert, ymGet, hm, hym]
  · simp [ymInsert, ymGet, hy]

theorem ymGet_foldl_insert (l : List (PhotoInfo × ExifInfo)) (acc : YM) (y m : Nat) :
    ymGet (l.foldl (fun a pe => ymInsert a pe.2.year pe.2.month pe.1) acc) y m =
      ymGet acc y m ++
        (l.filter (fun pe => decide (y = pe.2.year ∧ m = pe.2.month))).map (·.1) := by
  induction l generalizing acc with
  | nil => simp
  | cons pe rest ih =>
    rw [List.foldl_cons, ih, ymGet_insert, List.filter_cons]
    by_cases h : y = pe.2.year ∧ m = pe.2.month
    · rw [if_pos h, decide_eq_true h]
      simp [List.append_assoc]
    · rw [if_neg h, decide_eq_false h]
      simp

theorem ymGet_group (l : List (PhotoInfo × ExifInfo)) (y m : Nat) :
    ymGet (groupYM l) y m =
      (l.filter (fun pe => decide (y = pe.2.year ∧ m = pe.2.month))).map (·.1) := by
  unfold groupYM
  rw [ymGet_foldl_insert]
  simp [ymGet, ymEmpty]

theorem ymGet_merge (acc part : YM) (y m : Nat) :
    ymGet (mergeYM acc part) y m = ymGet acc y m ++ ymGet part y m := by
  unfold ymGet mergeYM
  cases hp : part y with
  | none => simp
  | some pm =>
    cases hpm : pm m with
    | none => cases ha : acc y <;> simp [hpm]
    | some infos => cases ha : acc y <;> simp [hpm]

/-- The in-memory photo cache (struct `PhotoCache`); `exif_cache` is an
association list (HashMap contents), `by_year_month` the nested map. The
`object_detection` field (always `None` after `build`) is omitted. -/
structure PhotoCacheM where
  image_dir : RStr
  images : List PhotoInfo
  exif_entries : List (PhotoInfo × ExifInfo)
  by_year_month : YM

/-- Per-archive input to `build`: the archive file name, its image-entry
listing (index, entry name), and the parsed content of its `.exif.json`
cache file (for a fresh archive, the serialization of the extracted map;
for a cache hit, what an earlier identical build wrote). -/
structure ArchData where
  zip : RStr
  listing : List (Nat × RStr)
  exifJson : List (RStr × ExifInfo)

/-- Deserialization of one archive's persisted EXIF map: entries whose key
fails `deserialize_from_key` are dropped by `filter_map` (`.ok()`). -/
def loadArch (a : ArchData) : List (PhotoInfo × ExifInfo) :=
  a.exifJson.filterMap (fun ke =>
    match PhotoInfo.deserialize_from_key ke.1 with
    | .ok p => some (p, ke.2)
    | .error _ => none)

/-- Model of `HashMap::extend`: later entries overwrite earlier ones with equal key. -/
def exifExtend (acc new : List (PhotoInfo × ExifInfo)) :
    List (PhotoInfo × ExifInfo) :=
  acc.filter (fun pe => !(new.any (fun qe => pe.1 == qe.1))) ++ new

/-- Model of `PhotoCache::build` over the per-archive inputs: accumulate the photo
set, merge each archive's loaded EXIF map into the global index, and merge
each archive's grouped temporal index (computed from the loaded map) into
the global one.  File-system and JSON-parse failures are preconditions (the
inputs are the parsed file contents); `HashSet` iteration order is modelled
as first-insertion order (`dedup`). -/
def buildModel (image_dir : RStr) (archs : List ArchData) : PhotoCacheM :=
  { image_dir := image_dir
    images := (archs.flatMap (fun a =>
      a.listing.map (fun iw => PhotoInfo.mk a.zip iw.2 iw.1))).dedup
    exif_entries := archs.foldl (fun acc a => exifExtend acc (loadArch a)) []
    by_year_month := archs.foldl (fun acc a => mergeYM acc (groupYM (loadArch a))) ymEmpty }

/-- Model of `build`'s `Result` wrapper: once the per-archive cache files are read
and parsed (the `archs` input), no remaining stage of `build` can fail. -/
def buildModelE (image_dir : RStr) (archs : List ArchData) :
    Except RStr PhotoCacheM :=
  .ok (buildModel image_dir archs)

/-- A key is canonical for an archive: if it deserializes at all, it is the
serialization of its `PhotoInfo`, whose archive field names this archive.
Every key written by `build` (`serialize_as_key` of an extracted entry)
satisfies this. -/
def keyCanonicalB (zip k : RStr) : Bool :=
  match PhotoInfo.deserialize_from_key k with
  | .ok p => k == PhotoInfo.serialize_as_key p && p.zip_file_name == zip
  | .error _ => true

theorem keyCanonicalB_spec (zip k : RStr) (p : PhotoInfo)
    (hc : keyCanonicalB zip k = true)
    (hd : PhotoInfo.deserialize_from_key k = .ok p) :
    k = PhotoInfo.serialize_as_key p ∧ p.zip_file_name = zip := by
  unfold keyCanonicalB at hc
  rw [hd] at hc
  rw [Bool.and_eq_true, beq_iff_eq, beq_iff_eq] at hc
  exact hc

theorem nodup_keys_unique {α β : Type} (l : List (α × β))
    (h : (l.map Prod.fst).Nodup) (k : α) (b b' : β)
    (hb : (k, b) ∈ l) (hb' : (k, b') ∈ l) : b = b' := by
  induction l with
  | nil => simp at hb
  | cons hd tl ih =>
    rw [List.map_cons, List.nodup_cons] at h
    rcases List.mem_cons.mp hb with h1 | h1 <;>
      rcases List.mem_cons.mp hb' with h2 | h2
    · rw [← h2] at h1
      exact (Prod.ext_iff.mp h1).2
    · exfalso
      apply h.1
      rw [← h1]
      exact List.mem_map.mpr ⟨(k, b'), h2, rfl⟩
    · exfalso
      apply h.1
      rw [← h2]
      exact List.mem_map.mpr ⟨(k, b), h1, rfl⟩
    · exact ih h.2 h1 h2

theorem mem_loadArch (a : ArchData) (p : PhotoInfo) (r : ExifInfo) :
    (p, r) ∈ loadArch a ↔
      ∃ k, (k, r) ∈ a.exifJson ∧ PhotoInfo.deserialize_from_key k = .ok p := by
  unfold loadArch
  rw [List.mem_filterMap]
  constructor
  · rintro ⟨ke, hke, hf⟩
    cases hd : PhotoInfo.deserialize_from_key ke.1 with
    | ok q =>
      rw [hd] at hf
      simp only [Option.some.injEq, Prod.mk.injEq] at hf
      obtain ⟨hq, hr⟩ := hf
      refine ⟨ke.1, ?_, by rw [hd, hq]⟩
      have : ke = (ke.1, r) := by
        rw [← hr]
      rw [← this]
      exact hke
    | error e =>
      rw [hd] at hf
      simp at hf
  · rintro ⟨k, hk, hd⟩
    exact ⟨(k, r), hk, by rw [hd]⟩

theorem mem_exifExtend (x : PhotoInfo × ExifInfo)
    (acc new : List (PhotoInfo × ExifInfo)) (h : x ∈ exifExtend acc new) :
    x ∈ acc ∨ x ∈ new := by
  unfold exifExtend at h
  rcases List.mem_append.mp h with h | h
  · exact Or.inl (List.mem_of_mem_filter h)
  · exact Or.inr h

theorem mem_foldl_exifExtend (archs : List ArchData) (x : PhotoInfo × ExifInfo) :
    ∀ acc, x ∈ archs.foldl (fun acc a => exifExtend acc (loadArch a)) acc →
      x ∈ acc ∨ ∃ a ∈ archs, x ∈ loadArch a := by
  induction archs with
  | nil => exact fun acc hx => Or.inl hx
  | cons a rest ih =>
    intro acc hx
    rw [List.foldl_cons] at hx
    rcases ih _ hx with h1 | h1
    · rcases mem_exifExtend _ _ _ h1 with h2 | h2
      · exact Or.inl h2
      · exact Or.inr ⟨a, by simp, h2⟩
    · obtain ⟨a', ha', hx'⟩ := h1
      exact Or.inr ⟨a', by simp [ha'], hx'⟩

theorem mem_build_exif (archs : List ArchData) (dir : RStr)
    (x : PhotoInfo × ExifInfo) (h : x ∈ (buildModel dir archs).exif_entries) :
    ∃ a ∈ archs, x ∈ loadArch a := by
  rcases mem_foldl_exifExtend archs x [] h with h1 | h1
  · simp at h1
  · exact h1

theorem ymGet_build (archs : List ArchData) (dir : RStr) (y m : Nat) :
    ymGet (buildModel dir archs).by_year_month y m =
      archs.flatMap (fun a => ymGet (groupYM (loadArch a)) y m) := by
  suffices H : ∀ acc : YM,
      ymGet (archs.foldl (fun acc a => mergeYM acc (groupYM (loadArch a))) acc) y m =
      ymGet acc y m ++ archs.flatMap (fun a => ymGet (groupYM (loadArch a)) y m) by
    have h0 := H ymEmpty
    have he : ymGet ymEmpty y m = [] := by simp [ymGet, ymEmpty]
    rw [he] at h0
    simpa using h0
  intro acc
  induction archs generalizing acc with
  | nil => simp
  | cons a rest ih =>
    rw [List.foldl_cons, ih, ymGet_merge, List.flatMap_cons]
    simp [List.append_assoc]

theorem loadArch_canonical (a : ArchData)
    (hk : ∀ ke ∈ a.exifJson, keyCanonicalB a.zip ke.1 = true)
    (p : PhotoInfo) (r : ExifInfo) (h : (p, r) ∈ loadArch a) :
    p.zip_file_name = a.zip ∧ (PhotoInfo.serialize_as_key p, r) ∈ a.exifJson := by
  obtain ⟨k, hkmem, hd⟩ := (mem_loadArch a p r).mp h
  obtain ⟨hks, hzip⟩ := keyCanonicalB_spec a.zip k p (hk (k, r) hkmem) hd
  refine ⟨hzip, ?_⟩
  rw [← hks]
  exact hkmem

theorem loadArch_unique (a : ArchData)
    (hn : (a.exifJson.map Prod.fst).Nodup)
    (hk : ∀ ke ∈ a.exifJson, keyCanonicalB a.zip ke.1 = true)
    (p : PhotoInfo) (r r' : ExifInfo)
    (h : (p, r) ∈ loadArch a) (h' : (p, r') ∈ loadArch a) : r = r' :=
  nodup_keys_unique _ hn _ _ _
    (loadArch_canonical a hk p r h).2 (loadArch_canonical a hk p r' h').2

/-- Claim C1: in a built cache whose per-archive cache files are well-formed
(distinct archive names; distinct keys per file; every deserializable key is
the canonical serialization of a `PhotoInfo` naming that archive — which is
what `build` itself writes), every photo with an EXIF entry appears in the
`(year, month)` bucket of its record and in no other bucket; a record with
`year = month = 0` is thereby placed in the `(0, 0)` bucket. -/
theorem c1_temporal_grouping (dir : RStr) (archs : List ArchData)
    (hnames : (archs.map (·.zip)).Nodup)
    (harch : ∀ a ∈ archs, (a.exifJson.map Prod.fst).Nodup ∧
       ∀ ke ∈ a.exifJson, keyCanonicalB a.zip ke.1 = true) :
    ∀ p r, (p, r) ∈ (buildModel dir archs).exif_entries →
      p ∈ ymGet (buildModel dir archs).by_year_month r.year r.month ∧
      ∀ y m, p ∈ ymGet (buildModel dir archs).by_year_month y m →
        y = r.year ∧ m = r.month := by
  intro p r hmem
  obtain ⟨a, ha, hla⟩ := mem_build_exif archs dir _ hmem
  have hina : p ∈ ymGet (groupYM (loadArch a)) r.year r.month := by
    rw [ymGet_group]
    exact List.mem_map.mpr ⟨(p, r), List.mem_filter.mpr ⟨hla, by simp⟩, rfl⟩
  constructor
  · rw [ymGet_build]
    exact List.mem_flatMap.mpr ⟨a, ha, hina⟩
  · intro y m hym
    rw [ymGet_build] at hym
    obtain ⟨a', ha', hym'⟩ := List.mem_flatMap.mp hym
    rw [ymGet_group] at hym'
    obtain ⟨pe, hpe, hpeq⟩ := List.mem_map.mp hym'
    obtain ⟨hpe_mem, hpe_cond⟩ := List.mem_filter.mp hpe
    rw [decide_eq_true_eq] at hpe_cond
    obtain ⟨hy, hm⟩ := hpe_cond
    have hpe2 : (p, pe.2) ∈ loadArch a' := by
      rw [← hpeq]
      exact hpe_mem
    have hzipa : p.zip_file_name = a.zip :=
      (loadArch_canonical a (harch a ha).2 p r hla).1
    have hzipa' : p.zip_file_name = a'.zip :=
      (loadArch_canonical a' (harch a' ha').2 p pe.2 hpe2).1
    have haa : a = a' :=
      List.inj_on_of_nodup_map hnames ha ha' (by rw [← hzipa, ← hzipa'])
    subst haa
    have hr : pe.2 = r :=
      loadArch_unique a (harch a ha).1 (harch a ha).2 p pe.2 r hpe2 hla
    rw [hr] at hy hm
    exact ⟨hy, hm⟩

/-- A metadata record with the unknown-date sentinel `year = month = 0`. -/
def exifZero : ExifInfo :=
  ⟨0, 0, ("\"unknown\"").data, 0, 0, ("\"unknown\"").data, ("0").data,
   ("0").data, ("0").data, ("0").data, ("\"unknown\"").data⟩

/-- A concrete well-formed archive (keys are canonical serializations). -/
def archA : ArchData :=
  { zip := ("a.zip").data
    listing := [(0, ("img1.jpg").data), (1, ("img2.png").data)]
    exifJson := [(("a.zip|img1.jpg|0").data, exifA), (("a.zip|img2.png|1").data, exifZero)] }

/-- A concrete archive whose cache file holds one malformed key. -/
def archBad : ArchData :=
  { zip := ("b.zip").data
    listing := [(0, ("x.jpg").data)]
    exifJson := [(("badkey").data, exifZero), (("b.zip|x.jpg|0").data, exifA)] }

/-- Witness for the claim-C1 theorem: a one-archive build; the photo whose
record has `year = month = 0` lands in the `(0, 0)` bucket. -/
theorem c1_temporal_grouping_witness :
    (([archA].map (·.zip)).Nodup) ∧
    (∀ a ∈ [archA], (a.exifJson.map Prod.fst).Nodup ∧
       ∀ ke ∈ a.exifJson, keyCanonicalB a.zip ke.1 = true) ∧
    ((⟨("a.zip").data, ("img2.png").data, 1⟩, exifZero)
       ∈ (buildModel ("dir").data [archA]).exif_entries) ∧
    (⟨("a.zip").data, ("img2.png").data, 1⟩ : PhotoInfo)
       ∈ ymGet (buildModel ("dir").data [archA]).by_year_month 0 0 :=
  ⟨by decide, by decide, by decide,
   (c1_temporal_grouping ("dir").data [archA] (by decide) (by decide)
      ⟨("a.zip").data, ("img2.png").data, 1⟩ exifZero (by decide)).1⟩

/-- Claim C9: for delimiter-free names (and an index within `usize`), the
serialized composite key deserializes back to the same `PhotoInfo`; when
either name contains `|`, deserialization of the serialized key does not
yield the original value (it in fact fails). -/
theorem c9_key_roundtrip (p : PhotoInfo) :
    (('|' ∉ p.zip_file_name ∧ '|' ∉ p.photo_file_name ∧
        p.photo_index_in_zip < 2 ^ 64) →
       PhotoInfo.deserialize_from_key (PhotoInfo.serialize_as_key p) = .ok p)
    ∧ (('|' ∈ p.zip_file_name ∨ '|' ∈ p.photo_file_name) →
       PhotoInfo.deserialize_from_key (PhotoInfo.serialize_as_key p) ≠ .ok p) := by
  constructor
  · rintro ⟨hz, hp, hidx⟩
    exact deserialize_serialize p hz hp hidx
  · intro h
    obtain ⟨msg, hmsg⟩ := deserialize_serialize_bar p h
    rw [hmsg]
    simp

/-- Witness for the claim-C9 theorem at a concrete key. -/
theorem c9_key_roundtrip_witness :
    ('|' ∉ (("a.zip").data : RStr) ∧ '|' ∉ (("img1.jpg").data : RStr) ∧
       (3 : Nat) < 2 ^ 64) ∧
    PhotoInfo.deserialize_from_key
        (PhotoInfo.serialize_as_key ⟨("a.zip").data, ("img1.jpg").data, 3⟩)
      = .ok ⟨("a.zip").data, ("img1.jpg").data, 3⟩ :=
  ⟨by decide, (c9_key_roundtrip _).1 (by decide)⟩

/-- Claim C10: loading a parsed per-archive EXIF cache file keeps exactly the
entries whose composite key splits into three parts with a parseable index —
malformed entries are silently dropped — and the remaining build stages
cannot fail: the built index contains only successfully deserialized
entries. -/
theorem c10_malformed_keys_dropped (dir : RStr) (archs : List ArchData) :
    (buildModelE dir archs).isOk = true
    ∧ (∀ a ∈ archs, ∀ p e, ((p, e) ∈ loadArch a ↔
        ∃ k, (k, e) ∈ a.exifJson ∧ PhotoInfo.deserialize_from_key k = .ok p))
    ∧ (∀ x, x ∈ (buildModel dir archs).exif_entries →
        ∃ a ∈ archs, x ∈ loadArch a) := by
  refine ⟨rfl, ?_, ?_⟩
  · intro a _ p e
    exact mem_loadArch a p e
  · intro x hx
    exact mem_build_exif archs dir x hx

/-- Witness for the claim-C10 theorem on an archive with a malformed key:
the well-formed entry is kept. -/
theorem c10_malformed_keys_dropped_witness :
    archBad ∈ [archBad] ∧
    ((⟨("b.zip").data, ("x.jpg").data, 0⟩, exifA) ∈ loadArch archBad ↔
      ∃ k, (k, exifA) ∈ archBad.exifJson ∧
        PhotoInfo.deserialize_from_key k = .ok ⟨("b.zip").data, ("x.jpg").data, 0⟩) :=
  ⟨by simp,
   (c10_malformed_keys_dropped ("dir").data [archBad]).2.1 archBad (by simp) _ _⟩

/-! ## Paginated query operations (src/core/image_cache.rs) -/

/-- The shared pagination of all search operations:
`start = offset.min(total)`, `end = (offset + limit).min(total)`, and the
slice `[start..end]`, returned with the full match count. -/
def paginate {α : Type} (xs : List α) (offset limit : Nat) : List α × Nat :=
  let total := xs.length
  let start := min offset total
  let stop := min (offset + limit) total
  ((xs.drop start).take (stop - start), total)

/-- Model of `PhotoCache::list_all_images`. -/
def list_all_images (c : PhotoCacheM) (offset limit : Nat) : List PhotoInfo × Nat :=
  let total_images := c.images.length
  let start := min offset total_images
  let stop := min (offset + limit) total_images
  ((c.images.drop start).take (stop - start), total_images)

/-- The filter of `PhotoCache::search_image_by_name`: case-insensitive
substring match on the entry name, and on the archive name when a filter is
given. -/
def nameMatches (c : PhotoCacheM) (file_name : RStr) (zip_file_name : Option RStr) :
    List PhotoInfo :=
  c.images.filter (fun info =>
    containsSub (lowerS info.photo_file_name) (lowerS file_name) &&
    (match zip_file_name with
     | some z => containsSub (lowerS info.zip_file_name) (lowerS z)
     | none => true))

/-- Model of `PhotoCache::search_image_by_name`. -/
def search_image_by_name (c : PhotoCacheM) (file_name : RStr)
    (zip_file_name : Option RStr) (offset limit : Nat) : List PhotoInfo × Nat :=
  let zip_infos := nameMatches c file_name zip_file_name
  let start := min offset zip_infos.length
  let stop := min (offset + limit) zip_infos.length
  ((zip_infos.drop start).take (stop - start), zip_infos.length)

/-- Model of `PhotoCache::search_image_by_year_month` (an absent year or month key
returns the empty page with total 0). -/
def search_image_by_year_month (c : PhotoCacheM) (year month offset limit : Nat) :
    List PhotoInfo × Nat :=
  match c.by_year_month year with
  | none => ([], 0)
  | some mm =>
    match mm month with
    | none => ([], 0)
    | some zip_infos =>
      let start := min offset zip_infos.length
      let stop := min (offset + limit) zip_infos.length
      ((zip_infos.drop start).take (stop - start), zip_infos.length)

/-- The filter of `PhotoCache::search_image_by_exif_tags`: a query-engine
error on a record is converted to `false` (`unwrap_or(false)`) — the record
is treated as a non-match. -/
def exifMatches (c : PhotoCacheM) (tag_name tag_value op : RStr) :
    List (PhotoInfo × ExifInfo) :=
  c.exif_entries.filter (fun pe =>
    ((matches_query pe.2 tag_name tag_value op).toOption.getD false))

/-- Model of `PhotoCache::search_image_by_exif_tags`; always returns `Ok`. -/
def search_image_by_exif_tags (c : PhotoCacheM) (tag_name tag_value op : RStr)
    (offset limit : Nat) : Except RStr (List (PhotoInfo × ExifInfo) × Nat) :=
  let results := exifMatches c tag_name tag_value op
  let start := min offset results.length
  let stop := min (offset + limit) results.length
  .ok ((results.drop start).take (stop - start), results.length)

theorem paginate_page_eq {α : Type} (xs : List α) (offset limit : Nat) :
    (paginate xs offset limit).1 = (xs.drop offset).take limit := by
  simp only [paginate]
  by_cases h : offset ≤ xs.length
  · rw [min_eq_left h]
    rcases le_or_lt (offset + limit) xs.length with h2 | h2
    · rw [min_eq_left h2]
      have he : offset + limit - offset = limit := by omega
      rw [he]
    · rw [min_eq_right (le_of_lt h2)]
      apply List.take_eq_take.mpr
      rw [List.length_drop]
      omega
  · push_neg at h
    rw [min_eq_right (le_of_lt h), min_eq_right (by omega)]
    have hd : xs.drop offset = [] := List.drop_eq_nil_of_le (by omega)
    simp [hd]

theorem paginate_page_length {α : Type} (xs : List α) (offset limit : Nat) :
    (paginate xs offset limit).1.length = min limit (xs.length - offset) := by
  rw [paginate_page_eq, List.length_take, List.length_drop]

/-- The pagination process of the spec: starting from an offset, request a
page, step the offset by the returned page length, and concatenate; stops
when a page comes back empty. -/
def collectPages {α : Type} (xs : List α) (limit : Nat) (offset : Nat) : List α :=
  let page := (xs.drop offset).take limit
  if page.length = 0 then []
  else page ++ collectPages xs limit (offset + page.length)
termination_by xs.length - offset
decreasing_by
  rename_i hne
  have hne2 : ¬((xs.drop offset).take limit).length = 0 := hne
  have h1 : offset < xs.length := by
    by_contra hc
    push_neg at hc
    rw [List.drop_eq_nil_of_le hc] at hne2
    simp at hne2
  have h2 : 0 < ((xs.drop offset).take limit).length := Nat.pos_of_ne_zero hne2
  omega

theorem collectPages_reconstructs {α : Type} (xs : List α) (limit : Nat)
    (hl : 0 < limit) : ∀ offset, collectPages xs limit offset = xs.drop offset := by
  have H : ∀ n offset, xs.length - offset ≤ n →
      collectPages xs limit offset = xs.drop offset := by
    intro n
    induction n with
    | zero =>
      intro offset ho
      have hd : xs.drop offset = [] := List.drop_eq_nil_of_le (by omega)
      rw [collectPages, hd]
      simp
    | succ n ih =>
      intro offset ho
      rw [collectPages]
      by_cases hp : ((xs.drop offset).take limit).length = 0
      · rw [if_pos hp]
        rw [List.length_take, List.length_drop] at hp
        have hd : xs.drop offset = [] := List.drop_eq_nil_of_le (by omega)
        rw [hd]
      · rw [if_neg hp]
        have hlen : ((xs.drop offset).take limit).length = min limit (xs.length - offset) := by
          rw [List.length_take, List.length_drop]
        have hoff : offset < xs.length := by
          by_contra hc
          push_neg at hc
          rw [List.drop_eq_nil_of_le hc] at hp
          simp at hp
        rw [ih (offset + ((xs.drop offset).take limit).length) (by rw [hlen]; omega)]
        have hdd : xs.drop (offset + ((xs.drop offset).take limit).length)
            = (xs.drop offset).drop ((xs.drop offset).take limit).length := by
          rw [List.drop_drop, Nat.add_comm]
        rw [hdd]
        have htd : ((xs.drop offset).take limit).length = min limit (xs.drop offset).length := by
          rw [List.length_take]
        rw [htd]
        rcases le_or_lt limit (xs.drop offset).length with h2 | h2
        · rw [min_eq_left h2, List.take_append_drop]
        · rw [min_eq_right (le_of_lt h2), List.drop_length,
            List.take_of_length_le (le_of_lt h2), List.append_nil]
  exact fun offset => H (xs.length - offset) offset le_rfl

theorem by_year_month_eq (c : PhotoCacheM) (y m o l : Nat) :
    search_image_by_year_month c y m o l = paginate (ymGet c.by_year_month y m) o l := by
  unfold search_image_by_year_month ymGet
  cases hy : c.by_year_month y with
  | none => simp [paginate]
  | some mm =>
    cases hm : mm m with
    | none => simp [paginate, hm]
    | some infos => simp [paginate, hm]

/-- A concrete photo and single-photo cache used by the closed instances. -/
def photoB : PhotoInfo := ⟨("a.zip").data, ("img1.jpg").data, 0⟩

/-- A concrete one-photo cache. -/
def cacheB : PhotoCacheM :=
  { image_dir := ("dir").data
    images := [photoB]
    exif_entries := [(photoB, exifA)]
    by_year_month := groupYM [(photoB, exifA)] }

/-- Claim C2 counterexample: with `limit = 0` every page is empty, so
stepping the offset by the returned page length never advances and the
concatenation of the obtained pages is empty — it does not reconstruct a
non-empty result list. -/
theorem c2_counterexample :
    (list_all_images cacheB 0 0).1.length = 0 ∧
    collectPages cacheB.images 0 0 ≠ cacheB.images := by
  constructor
  · decide
  · rw [collectPages]
    simp [cacheB]

/-- Claim C2 (amended): for each paginated operation the returned page is
the `[offset, offset+limit)` slice of the full match list, its length is
`min limit (total - offset)`, the returned total is the full match count
independent of `offset`/`limit`, and for `limit ≥ 1` concatenating the pages
obtained by stepping the offset by each returned page length reconstructs
the full list (for `limit = 0` the process never advances). -/
theorem c2_pagination (c : PhotoCacheM) (file_name : RStr) (zip_filter : Option RStr)
    (year month : Nat) (tag v op : RStr) (offset limit : Nat) :
    ((list_all_images c offset limit).1 = (c.images.drop offset).take limit
      ∧ (list_all_images c offset limit).1.length = min limit (c.images.length - offset)
      ∧ (list_all_images c offset limit).2 = c.images.length
      ∧ (0 < limit → collectPages c.images limit 0 = c.images))
    ∧ ((search_image_by_name c file_name zip_filter offset limit).1
          = ((nameMatches c file_name zip_filter).drop offset).take limit
      ∧ (search_image_by_name c file_name zip_filter offset limit).1.length
          = min limit ((nameMatches c file_name zip_filter).length - offset)
      ∧ (search_image_by_name c file_name zip_filter offset limit).2
          = (nameMatches c file_name zip_filter).length
      ∧ (0 < limit → collectPages (nameMatches c file_name zip_filter) limit 0
          = nameMatches c file_name zip_filter))
    ∧ ((search_image_by_year_month c year month offset limit).1
          = ((ymGet c.by_year_month year month).drop offset).take limit
      ∧ (search_image_by_year_month c year month offset limit).1.length
          = min limit ((ymGet c.by_year_month year month).length - offset)
      ∧ (search_image_by_year_month c year month offset limit).2
          = (ymGet c.by_year_month year month).length
      ∧ (0 < limit → collectPages (ymGet c.by_year_month year month) limit 0
          = ymGet c.by_year_month year month))
    ∧ (search_image_by_exif_tags c tag v op offset limit
          = .ok (paginate (exifMatches c tag v op) offset limit)
      ∧ (paginate (exifMatches c tag v op) offset limit).1.length
          = min limit ((exifMatches c tag v op).length - offset)
      ∧ (paginate (exifMatches c tag v op) offset limit).2
          = (exifMatches c tag v op).length
      ∧ (0 < limit → collectPages (exifMatches c tag v op) limit 0
          = exifMatches c tag v op)) := by
  have hcol : ∀ (xs : List PhotoInfo), 0 < limit → collectPages xs limit 0 = xs := by
    intro xs hl
    rw [collectPages_reconstructs xs limit hl 0, List.drop_zero]
  have hcol2 : ∀ (xs : List (PhotoInfo × ExifInfo)), 0 < limit →
      collectPages xs limit 0 = xs := by
    intro xs hl
    rw [collectPages_reconstructs xs limit hl 0, List.drop_zero]
  refine ⟨⟨?_, ?_, rfl, hcol _⟩, ⟨?_, ?_, rfl, hcol _⟩, ⟨?_, ?_, ?_, hcol _⟩,
    ⟨rfl, ?_, rfl, hcol2 _⟩⟩
  · exact paginate_page_eq c.images offset limit
  · exact paginate_page_length c.images offset limit
  · exact paginate_page_eq (nameMatches c file_name zip_filter) offset limit
  · exact paginate_page_length (nameMatches c file_name zip_filter) offset limit
  · rw [by_year_month_eq]
    exact paginate_page_eq _ offset limit
  · rw [by_year_month_eq]
    exact paginate_page_length _ offset limit
  · rw [by_year_month_eq]
    rfl
  · exact paginate_page_length (exifMatches c tag v op) offset limit

/-- Witness for the claim-C2 theorem at the one-photo cache with
`limit = 1`. -/
theorem c2_pagination_witness :
    (0 : Nat) < 1 ∧
    (list_all_images cacheB 0 1).2 = cacheB.images.length ∧
    collectPages cacheB.images 1 0 = cacheB.images :=
  ⟨by decide, (c2_pagination cacheB [] none 0 0 [] [] [] 0 1).1.2.2.1,
   (c2_pagination cacheB [] none 0 0 [] [] [] 0 1).1.2.2.2 (by decide)⟩

/-- Claim C3 counterexample: an unknown tag name makes every per-record
evaluation error, yet `search_image_by_exif_tags` returns `Ok` with an empty
page — the error is converted into a non-match, not returned. -/
theorem c3_counterexample :
    matches_query exifA ("bogus").data ("x").data ("==").data
      = .error ((("Invalid tag name: ").data ++ ("bogus").data)) ∧
    search_image_by_exif_tags cacheB ("bogus").data ("x").data ("==").data 0 10
      = .ok ([], 0) := by
  constructor
  · decide
  · decide

/-- Claim C3 (amended): the EXIF-tag search never surfaces query-engine
errors: it always returns `Ok`; a record is on the page only if its
evaluation returned `Ok true` (errors count as non-matches); when every
record evaluates to an error the result is `Ok` of the empty page with
total 0.  The operation reads the cache through `&self` and performs no
mutation (the model is a pure function of the cache). -/
theorem c3_error_swallowed (c : PhotoCacheM) (tag v op : RStr) (offset limit : Nat) :
    (search_image_by_exif_tags c tag v op offset limit).isOk = true
    ∧ (∀ pe ∈ exifMatches c tag v op, matches_query pe.2 tag v op = .ok true)
    ∧ ((∀ pe ∈ c.exif_entries, ∃ msg, matches_query pe.2 tag v op = .error msg) →
        search_image_by_exif_tags c tag v op offset limit = .ok ([], 0)) := by
  refine ⟨rfl, ?_, ?_⟩
  · intro pe hpe
    have hb := (List.mem_filter.mp hpe).2
    cases hq : matches_query pe.2 tag v op with
    | ok b =>
      rw [hq] at hb
      cases b
      · simp [Except.toOption] at hb
      · rfl
    | error msg =>
      rw [hq] at hb
      simp [Except.toOption] at hb
  · intro hall
    have hempty : exifMatches c tag v op = [] := by
      unfold exifMatches
      rw [List.filter_eq_nil_iff]
      intro pe hpe
      obtain ⟨msg, hmsg⟩ := hall pe hpe
      rw [hmsg]
      simp [Except.toOption]
    unfold search_image_by_exif_tags
    rw [hempty]
    simp

/-- Witness for the claim-C3 theorem: all-erroneous predicate on the
one-photo cache. -/
theorem c3_error_swallowed_witness :
    search_image_by_exif_tags cacheB ("bogus").data ("x").data ("==").data 0 10
      = .ok ([], 0) := by
  have hhyp : ∀ pe ∈ cacheB.exif_entries, ∃ msg,
      matches_query pe.2 ("bogus").data ("x").data ("==").data = .error msg := by
    intro pe hpe
    simp only [cacheB, List.mem_singleton] at hpe
    subst hpe
    exact ⟨_, rfl⟩
  exact (c3_error_swallowed cacheB (("bogus").data) (("x").data) (("==").data) 0 10).2.2 hhyp

/-! ## Detection orchestration (src/core/image_cache.rs, `crawl_and_analyse`) -/

/-- Grouping step: `entry(key).or_insert_with(Vec::new).push(x)` on an
insertion-ordered association list (HashMap contents). -/
def insertGroup {α : Type} (key : RStr) (x : α) :
    List (RStr × List α) → List (RStr × List α)
  | [] => [(key, [x])]
  | (k, ys) :: rest =>
    if k = key then (k, ys ++ [x]) :: rest else (k, ys) :: insertGroup key x rest

/-- Group a list by a string key (model of the `HashMap` grouping loops;
iteration order is modelled as first-insertion order). -/
def groupByKey {α : Type} (key : α → RStr) (xs : List α) : List (RStr × List α) :=
  xs.foldl (fun acc x => insertGroup (key x) x acc) []

/-- Model of `format!("{}/{}.{}.json", image_dir, zip_file, suffix)`. -/
def form_file (image_dir zip_file suffix : RStr) : RStr :=
  image_dir ++ ('/' :: (zip_file ++ ('.' :: (suffix ++ (".json").data))))

/-- The observable side effects of `crawl_and_analyse`: one detector
invocation per 100-photo chunk, and one result-file write per processed
archive. -/
inductive Effect where
  | detect (archive : RStr) (photos : List PhotoInfo)
  | writeFile (file : RStr)
deriving DecidableEq, Repr

/-- Model of `Vec::chunks(n + 1)`. -/
def chunksPos {α : Type} (n : Nat) : List α → List (List α)
  | [] => []
  | x :: xs => ((x :: xs).take (n + 1)) :: chunksPos n ((x :: xs).drop (n + 1))
termination_by l => l.length
decreasing_by
  simp [List.length_drop]
  omega

/-- Model of `PhotoCache::crawl_and_analyse` as an effect trace: group photos by
archive, skip an archive whose result file exists, otherwise run the
detector on 100-photo chunks and write the result file once (file creation
and serialization are modelled as succeeding). -/
def crawl_and_analyse (fs : List RStr) (c : PhotoCacheM) : List Effect :=
  (groupByKey (·.zip_file_name) c.images).flatMap (fun entry =>
    if form_file c.image_dir entry.1 (("object_detection").data) ∈ fs then []
    else (chunksPos 99 entry.2).map (fun ch => Effect.detect entry.1 ch)
      ++ [Effect.writeFile (form_file c.image_dir entry.1 (("object_detection").data))])

/-- The files written by an effect trace. -/
def writtenFiles (effects : List Effect) : List RStr :=
  effects.filterMap (fun e =>
    match e with
    | .writeFile f => some f
    | _ => none)

theorem form_file_inj (dir s a b : RStr) (h : form_file dir a s = form_file dir b s) :
    a = b := by
  unfold form_file at h
  have h1 := List.append_cancel_left h
  injection h1 with _ h2
  exact List.append_cancel_right h2

/-- Claim C6: an archive whose result file already exists produces zero
detector invocations and no file write; and on a second run over the file
system extended with the first run's writes, the detector is not invoked
for any archive that the first run either skipped or processed (write
success is part of the model). -/
theorem c6_detection_idempotent (fs : List RStr) (c : PhotoCacheM) (archive : RStr) :
    ((form_file c.image_dir archive (("object_detection").data) ∈ fs) →
      ∀ e ∈ crawl_and_analyse fs c,
        (∀ ph, e ≠ .detect archive ph) ∧
        e ≠ .writeFile (form_file c.image_dir archive (("object_detection").data)))
    ∧ (∀ e ∈ crawl_and_analyse (fs ++ writtenFiles (crawl_and_analyse fs c)) c,
        ∀ ph, e ≠ .detect archive ph) := by
  constructor
  · intro hex e he
    obtain ⟨entry, hentry, hee⟩ := List.mem_flatMap.mp he
    by_cases hskip : form_file c.image_dir entry.1 (("object_detection").data) ∈ fs
    · rw [if_pos hskip] at hee
      simp at hee
    · rw [if_neg hskip] at hee
      rcases List.mem_append.mp hee with h1 | h1
      · obtain ⟨ch, hch, hcheq⟩ := List.mem_map.mp h1
        constructor
        · intro ph heq
          rw [← hcheq] at heq
          injection heq with ha hb
          rw [ha] at hskip
          exact hskip hex
        · intro heq
          rw [← hcheq] at heq
          exact Effect.noConfusion heq
      · rw [List.mem_singleton] at h1
        constructor
        · intro ph heq
          rw [h1] at heq
          exact Effect.noConfusion heq
        · intro heq
          rw [h1] at heq
          injection heq with hf
          have := form_file_inj _ _ _ _ hf
          rw [this] at hskip
          exact hskip hex
  · intro e he ph heq
    subst heq
    obtain ⟨entry, hentry, hee⟩ := List.mem_flatMap.mp he
    by_cases hskip : form_file c.image_dir entry.1 (("object_detection").data) ∈
        fs ++ writtenFiles (crawl_and_analyse fs c)
    · rw [if_pos hskip] at hee
      simp at hee
    · rw [if_neg hskip] at hee
      rcases List.mem_append.mp hee with h1 | h1
      · obtain ⟨ch, hch, hcheq⟩ := List.mem_map.mp h1
        injection hcheq with ha hb
        rw [ha] at hskip
        by_cases hf : form_file c.image_dir archive (("object_detection").data) ∈ fs
        · exact hskip (List.mem_append_left _ hf)
        · apply hskip
          apply List.mem_append_right
          have hw : Effect.writeFile
              (form_file c.image_dir entry.1 (("object_detection").data)) ∈
              crawl_and_analyse fs c := by
            apply List.mem_flatMap.mpr
            refine ⟨entry, hentry, ?_⟩
            rw [← ha] at hf
            rw [if_neg hf]
            exact List.mem_append_right _ (by simp)
          unfold writtenFiles
          apply List.mem_filterMap.mpr
          refine ⟨_, hw, ?_⟩
          rw [ha]
      · rw [List.mem_singleton] at h1
        exact Effect.noConfusion h1

/-- A concrete file-system state holding the result file for `a.zip`. -/
def fsC : List RStr :=
  [form_file ("dir").data ("a.zip").data (("object_detection").data)]

/-- Witness for the claim-C6 theorem: with the result file present, the run
produces no detection and no write for that archive. -/
theorem c6_detection_idempotent_witness :
    form_file cacheB.image_dir ("a.zip").data (("object_detection").data) ∈ fsC ∧
    ∀ e ∈ crawl_and_analyse fsC cacheB,
      (∀ ph, e ≠ .detect ("a.zip").data ph) ∧
      e ≠ .writeFile (form_file cacheB.image_dir ("a.zip").data (("object_detection").data)) :=
  ⟨by decide, (c6_detection_idempotent fsC cacheB ("a.zip").data).1 (by decide)⟩

/-! ## Image materialization (src/core/zip.rs `extract_zip_archive`,
src/core/image_cache.rs `PhotoCache::image_data`) -/

/-- Raw file bytes. -/
abbrev Bytes := List Nat

/-- The zip container store: archive name to entry list (name, bytes);
`is_file`/open/enumerate of the black-box container reader. -/
abbrev ZipFs := List (RStr × List (RStr × Bytes))

/-- Open an archive by name. -/
def zipLookup (zfs : ZipFs) (zip : RStr) : Option (List (RStr × Bytes)) :=
  (zfs.find? (fun p => p.1 == zip)).map (·.2)

/-- The out-of-bounds error message of `extract_zip_archive`:
`format!("File index {} out of bounds in zip {}", idx, zip_file_name)`. -/
def oobMsg (idx : Nat) (zip : RStr) : RStr :=
  ("File index ").data ++ natRepr idx ++ ((" out of bounds in zip ").data ++ zip)

/-- The per-index loop of `extract_zip_archive`: bounds check (error naming
index and archive), then read the entry by index. -/
def extractLoop (entries : List (RStr × Bytes)) (zip : RStr) :
    List Nat → Except RStr (List (PhotoInfo × Bytes))
  | [] => .ok []
  | idx :: rest =>
    match entries[idx]? with
    | none => .error (oobMsg idx zip)
    | some en =>
      (extractLoop entries zip rest).map (fun r => (⟨zip, en.1, idx⟩, en.2) :: r)

/-- Model of `zip::extract_zip_archive`. -/
def extract_zip_archive (zfs : ZipFs) (zip_file_name : RStr) (file_number : List Nat) :
    Except RStr (List (PhotoInfo × Bytes)) :=
  match zipLookup zfs zip_file_name with
  | none => .error ("Provided zip file path is not a file").data
  | some entries => extractLoop entries zip_file_name file_number

/-- The per-archive loop of `PhotoCache::image_data`; `process` is the
black-box thumbnail/resize/MIME path applied to each extracted photo
(EXIF-thumbnail extraction, the resize fallback and magic-byte sniffing). -/
def imageDataLoop (zfs : ZipFs) (process : PhotoInfo → Bytes → RStr × Bytes) :
    List (RStr × List Nat) → Except RStr (List (PhotoInfo × (RStr × Bytes)))
  | [] => .ok []
  | (zip, indices) :: rest =>
    match extract_zip_archive zfs zip indices with
    | .error e => .error e
    | .ok unpacked =>
      (imageDataLoop zfs process rest).map
        (fun r => unpacked.map (fun pb => (pb.1, process pb.1 pb.2)) ++ r)

/-- Model of `PhotoCache::image_data`: group requested refs by archive, extract each
archive's indices, and materialize bytes per photo. -/
def image_data (zfs : ZipFs) (process : PhotoInfo → Bytes → RStr × Bytes)
    (image_infos : List PhotoInfo) : Except RStr (List (PhotoInfo × (RStr × Bytes))) :=
  imageDataLoop zfs process
    ((groupByKey (·.zip_file_name) image_infos).map
      (fun e => (e.1, e.2.map (·.photo_index_in_zip))))

theorem extractLoop_oob (entries : List (RStr × Bytes)) (zip : RStr) (idxs : List Nat)
    (hbad : ∃ i ∈ idxs, entries.length ≤ i) :
    ∃ i ∈ idxs, entries.length ≤ i ∧
      extractLoop entries zip idxs = .error (oobMsg i zip) := by
  induction idxs with
  | nil => simp at hbad
  | cons i rest ih =>
    by_cases hi : entries.length ≤ i
    · refine ⟨i, by simp, hi, ?_⟩
      unfold extractLoop
      rw [List.getElem?_eq_none hi]
    · have hbad' : ∃ j ∈ rest, entries.length ≤ j := by
        obtain ⟨j, hj, hlen⟩ := hbad
        rcases List.mem_cons.mp hj with hj1 | hj1
        · rw [hj1] at hlen
          exact absurd hlen hi
        · exact ⟨j, hj1, hlen⟩
      obtain ⟨j, hj, hlen, herr⟩ := ih hbad'
      refine ⟨j, by simp [hj], hlen, ?_⟩
      unfold extractLoop
      push_neg at hi
      rw [List.getElem?_eq_getElem hi, herr]
      rfl

theorem extractLoop_ok (entries : List (RStr × Bytes)) (zip : RStr) (idxs : List Nat)
    (hgood : ∀ i ∈ idxs, i < entries.length) :
    (extractLoop entries zip idxs).isOk = true := by
  induction idxs with
  | nil => rfl
  | cons i rest ih =>
    unfold extractLoop
    rw [List.getElem?_eq_getElem (hgood i (by simp))]
    have := ih (fun j hj => hgood j (by simp [hj]))
    cases hr : extractLoop entries zip rest with
    | ok r => rfl
    | error e =>
      rw [hr] at this
      simp [Except.isOk, Except.toBool] at this

theorem insertGroup_mem {α : Type} (k0 : RStr) (x : α) (acc : List (RStr × List α))
    (k : RStr) (ys : List α) (h : (k, ys) ∈ insertGroup k0 x acc) :
    (k, ys) ∈ acc ∨ (k = k0 ∧ ys = [x]) ∨
      ∃ ys0, (k, ys0) ∈ acc ∧ k = k0 ∧ ys = ys0 ++ [x] := by
  induction acc with
  | nil =>
    simp only [insertGroup, List.mem_singleton, Prod.mk.injEq] at h
    exact Or.inr (Or.inl ⟨h.1, h.2⟩)
  | cons hd tl ih =>
    obtain ⟨k1, ys1⟩ := hd
    unfold insertGroup at h
    by_cases hk : k1 = k0
    · rw [if_pos hk] at h
      rcases List.mem_cons.mp h with h1 | h1
      · injection h1 with ha hb
        right; right
        exact ⟨ys1, by rw [ha]; exact List.mem_cons_self _ _, ha.trans hk, hb⟩
      · exact Or.inl (List.mem_cons_of_mem _ h1)
    · rw [if_neg hk] at h
      rcases List.mem_cons.mp h with h1 | h1
      · exact Or.inl (List.mem_cons.mpr (Or.inl h1))
      · rcases ih h1 with h2 | h2 | ⟨ys0, h3, h4, h5⟩
        · exact Or.inl (List.mem_cons_of_mem _ h2)
        · exact Or.inr (Or.inl h2)
        · exact Or.inr (Or.inr ⟨ys0, List.mem_cons_of_mem _ h3, h4, h5⟩)

theorem groupFold_sound {α : Type} (key : α → RStr) (P : α → Prop) :
    ∀ (xs : List α), (∀ x ∈ xs, P x) →
      ∀ acc, (∀ k ys, (k, ys) ∈ acc → ∀ y ∈ ys, P y ∧ key y = k) →
      ∀ k ys, (k, ys) ∈ xs.foldl (fun acc x => insertGroup (key x) x acc) acc →
        ∀ y ∈ ys, P y ∧ key y = k := by
  intro xs
  induction xs with
  | nil => exact fun _ acc hacc k ys h y hy => hacc k ys h y hy
  | cons x rest ih =>
    intro hxs acc hacc k ys h y hy
    rw [List.foldl_cons] at h
    refine ih (fun z hz => hxs z (List.mem_cons_of_mem _ hz)) _ ?_ k ys h y hy
    intro k' ys' h' y' hy'
    rcases insertGroup_mem _ _ _ _ _ h' with h2 | ⟨hk, hys⟩ | ⟨ys0, h3, hk, hys⟩
    · exact hacc k' ys' h2 y' hy'
    · rw [hys, List.mem_singleton] at hy'
      subst hy'
      exact ⟨hxs y' (List.mem_cons_self _ _), hk.symm⟩
    · rw [hys] at hy'
      rcases List.mem_append.mp hy' with h4 | h4
      · exact hacc k' ys0 h3 y' h4
      · rw [List.mem_singleton] at h4
        subst h4
        exact ⟨hxs y' (List.mem_cons_self _ _), hk.symm⟩

theorem groupByKey_sound {α : Type} (key : α → RStr) (xs : List α)
    (k : RStr) (ys : List α) (h : (k, ys) ∈ groupByKey key xs) :
    ∀ y ∈ ys, y ∈ xs ∧ key y = k :=
  groupFold_sound key (· ∈ xs) xs (fun _ hx => hx) []
    (fun _ _ hmem => absurd hmem (List.not_mem_nil _)) k ys h

theorem groupFold_nonempty {α : Type} (key : α → RStr) :
    ∀ (xs : List α) acc, (∀ k ys, (k, ys) ∈ acc → ys ≠ []) →
      ∀ k ys, (k, ys) ∈ xs.foldl (fun acc x => insertGroup (key x) x acc) acc →
        ys ≠ [] := by
  intro xs
  induction xs with
  | nil => exact fun acc hacc k ys h => hacc k ys h
  | cons x rest ih =>
    intro acc hacc k ys h
    rw [List.foldl_cons] at h
    refine ih _ ?_ k ys h
    intro k' ys' h'
    rcases insertGroup_mem _ _ _ _ _ h' with h2 | ⟨_, hys⟩ | ⟨ys0, _, _, hys⟩
    · exact hacc k' ys' h2
    · rw [hys]
      simp
    · rw [hys]
      simp

theorem groupByKey_nonempty {α : Type} (key : α → RStr) (xs : List α)
    (k : RStr) (ys : List α) (h : (k, ys) ∈ groupByKey key xs) : ys ≠ [] :=
  groupFold_nonempty key xs [] (fun _ _ hmem => absurd hmem (List.not_mem_nil _)) k ys h

theorem insertGroup_preserve {α : Type} (k0 : RStr) (x : α)
    (acc : List (RStr × List α)) (k : RStr) (ys : List α) (h : (k, ys) ∈ acc) :
    ∃ ys', (k, ys') ∈ insertGroup k0 x acc ∧ ys ⊆ ys' := by
  induction acc with
  | nil => exact absurd h (List.not_mem_nil _)
  | cons hd tl ih =>
    obtain ⟨k1, ys1⟩ := hd
    unfold insertGroup
    by_cases hk : k1 = k0
    · rw [if_pos hk]
      rcases List.mem_cons.mp h with h1 | h1
      · injection h1 with ha hb
        refine ⟨ys1 ++ [x], ?_, ?_⟩
        · rw [ha]
          exact List.mem_cons_self _ _
        · rw [hb]
          exact List.subset_append_left _ _
      · exact ⟨ys, List.mem_cons_of_mem _ h1, List.Subset.refl _⟩
    · rw [if_neg hk]
      rcases List.mem_cons.mp h with h1 | h1
      · exact ⟨ys, List.mem_cons.mpr (Or.inl h1), List.Subset.refl _⟩
      · obtain ⟨ys', hmem, hsub⟩ := ih h1
        exact ⟨ys', List.mem_cons_of_mem _ hmem, hsub⟩

theorem insertGroup_self {α : Type} (k0 : RStr) (x : α) (acc : List (RStr × List α)) :
    ∃ ys', (k0, ys') ∈ insertGroup k0 x acc ∧ x ∈ ys' := by
  induction acc with
  | nil => exact ⟨[x], List.mem_singleton.mpr rfl, List.mem_singleton.mpr rfl⟩
  | cons hd tl ih =>
    obtain ⟨k1, ys1⟩ := hd
    unfold insertGroup
    by_cases hk : k1 = k0
    · rw [if_pos hk]
      subst hk
      exact ⟨ys1 ++ [x], List.mem_cons_self _ _, by simp⟩
    · rw [if_neg hk]
      obtain ⟨ys', hmem, hx⟩ := ih
      exact ⟨ys', List.mem_cons_of_mem _ hmem, hx⟩

theorem groupFold_complete {α : Type} (key : α → RStr) :
    ∀ (xs : List α) acc (x : α),
      (x ∈ xs ∨ ∃ ys, (key x, ys) ∈ acc ∧ x ∈ ys) →
      ∃ ys', (key x, ys') ∈ xs.foldl (fun acc x => insertGroup (key x) x acc) acc ∧
        x ∈ ys' := by
  intro xs
  induction xs with
  | nil =>
    intro acc x h
    rcases h with h | h
    · exact absurd h (List.not_mem_nil _)
    · exact h
  | cons z rest ih =>
    intro acc x h
    rw [List.foldl_cons]
    apply ih
    rcases h with h | ⟨ys, hmem, hx⟩
    · rcases List.mem_cons.mp h with h1 | h1
      · subst h1
        exact Or.inr (insertGroup_self (key x) x acc)
      · exact Or.inl h1
    · obtain ⟨ys', hmem', hsub⟩ := insertGroup_preserve (key z) z acc (key x) ys hmem
      exact Or.inr ⟨ys', hmem', hsub hx⟩

theorem groupByKey_complete {α : Type} (key : α → RStr) (xs : List α) (x : α)
    (hx : x ∈ xs) :
    ∃ ys, (key x, ys) ∈ groupByKey key xs ∧ x ∈ ys :=
  groupFold_complete key xs [] x (Or.inl hx)

theorem imageDataLoop_oob (zfs : ZipFs) (process : PhotoInfo → Bytes → RStr × Bytes) :
    ∀ (groups : List (RStr × List Nat)),
      (∀ g ∈ groups, ∃ entries, zipLookup zfs g.1 = some entries) →
      (∃ g ∈ groups, ∃ i ∈ g.2, ∃ entries,
        zipLookup zfs g.1 = some entries ∧ entries.length ≤ i) →
      ∃ g ∈ groups, ∃ i ∈ g.2,
        (∃ entries, zipLookup zfs g.1 = some entries ∧ entries.length ≤ i) ∧
        imageDataLoop zfs process groups = .error (oobMsg i g.1) := by
  intro groups
  induction groups with
  | nil =>
    intro _ hb
    simp at hb
  | cons g rest ih =>
    intro hz hb
    obtain ⟨zip, idxs⟩ := g
    obtain ⟨entries, hentries⟩ := hz (zip, idxs) (List.mem_cons_self _ _)
    by_cases hbadhead : ∃ i ∈ idxs, entries.length ≤ i
    · obtain ⟨i, hi, hlen, herr⟩ := extractLoop_oob entries zip idxs hbadhead
      refine ⟨(zip, idxs), List.mem_cons_self _ _, i, hi,
        ⟨entries, hentries, hlen⟩, ?_⟩
      unfold imageDataLoop extract_zip_archive
      simp only [hentries, herr]
    · have hbrest : ∃ g ∈ rest, ∃ i ∈ g.2, ∃ entries,
          zipLookup zfs g.1 = some entries ∧ entries.length ≤ i := by
        obtain ⟨g', hg', i, hi, entries', hlorg, hlen⟩ := hb
        rcases List.mem_cons.mp hg' with h1 | h1
        · exfalso
          subst h1
          rw [hentries] at hlorg
          injection hlorg with he
          subst he
          exact hbadhead ⟨i, hi, hlen⟩
        · exact ⟨g', h1, i, hi, entries', hlorg, hlen⟩
      obtain ⟨g', hg', i, hi, hbadg, herr2⟩ :=
        ih (fun g hg => hz g (List.mem_cons_of_mem _ hg)) hbrest
      refine ⟨g', List.mem_cons_of_mem _ hg', i, hi, hbadg, ?_⟩
      unfold imageDataLoop extract_zip_archive
      simp only [hentries]
      push_neg at hbadhead
      have hok := extractLoop_ok entries zip idxs hbadhead
      cases hu : extractLoop entries zip idxs with
      | error e =>
        rw [hu] at hok
        simp [Except.isOk, Except.toBool] at hok
      | ok unpacked =>
        simp only [hu, herr2]
        rfl

/-- Claim C7: a fetch-image-bytes request containing a `PhotoRef` whose
entry index is at least its archive's entry count (all referenced archives
being present) returns the `extract_zip_archive` error naming the offending
index and archive. -/
theorem c7_oob_named (zfs : ZipFs) (process : PhotoInfo → Bytes → RStr × Bytes)
    (infos : List PhotoInfo)
    (hex : ∀ info ∈ infos, ∃ entries,
      zipLookup zfs info.zip_file_name = some entries)
    (hbad : ∃ info ∈ infos, ∃ entries,
      zipLookup zfs info.zip_file_name = some entries ∧
      entries.length ≤ info.photo_index_in_zip) :
    ∃ info ∈ infos,
      (∃ entries, zipLookup zfs info.zip_file_name = some entries ∧
        entries.length ≤ info.photo_index_in_zip) ∧
      image_data zfs process infos
        = .error (oobMsg info.photo_index_in_zip info.zip_file_name) ∧
      oobMsg info.photo_index_in_zip info.zip_file_name
        = ("File index ").data ++ natRepr info.photo_index_in_zip
          ++ ((" out of bounds in zip ").data ++ info.zip_file_name) := by
  have hgz : ∀ g ∈ (groupByKey (fun i : PhotoInfo => i.zip_file_name) infos).map
      (fun e => (e.1, e.2.map (fun i : PhotoInfo => i.photo_index_in_zip))),
      ∃ entries, zipLookup zfs g.1 = some entries := by
    intro g hg
    obtain ⟨e, he, heq⟩ := List.mem_map.mp hg
    have hne := groupByKey_nonempty _ infos e.1 e.2 he
    obtain ⟨y, hy⟩ := List.exists_mem_of_ne_nil e.2 hne
    obtain ⟨hyin, hykey⟩ := groupByKey_sound _ infos e.1 e.2 he y hy
    obtain ⟨entries, hentries⟩ := hex y hyin
    rw [hykey] at hentries
    rw [← heq]
    exact ⟨entries, hentries⟩
  have hgb : ∃ g ∈ (groupByKey (fun i : PhotoInfo => i.zip_file_name) infos).map
      (fun e => (e.1, e.2.map (fun i : PhotoInfo => i.photo_index_in_zip))),
      ∃ i ∈ g.2, ∃ entries,
        zipLookup zfs g.1 = some entries ∧ entries.length ≤ i := by
    obtain ⟨info, hinfo, entries, hlook, hlen⟩ := hbad
    obtain ⟨ys, hys, hin⟩ := groupByKey_complete (fun i : PhotoInfo => i.zip_file_name)
      infos info hinfo
    refine ⟨(info.zip_file_name, ys.map (fun i : PhotoInfo => i.photo_index_in_zip)),
      List.mem_map.mpr ⟨(info.zip_file_name, ys), hys, rfl⟩,
      info.photo_index_in_zip, List.mem_map.mpr ⟨info, hin, rfl⟩,
      entries, hlook, hlen⟩
  obtain ⟨g, hg, i, hi, hbadg, herr⟩ := imageDataLoop_oob zfs process _ hgz hgb
  obtain ⟨e, he, heq⟩ := List.mem_map.mp hg
  have hi2 : i ∈ e.2.map (fun i : PhotoInfo => i.photo_index_in_zip) := by
    rw [← heq] at hi
    exact hi
  obtain ⟨y, hy, hyeq⟩ := List.mem_map.mp hi2
  obtain ⟨hyin, hykey⟩ := groupByKey_sound _ infos e.1 e.2 he y hy
  have hg1 : g.1 = y.zip_file_name := by
    rw [← heq, ← hykey]
  refine ⟨y, hyin, ?_, ?_, rfl⟩
  · rw [← hg1, hyeq]
    exact hbadg
  · unfold image_data
    rw [hyeq, ← hg1]
    exact herr

/-- A concrete zip store with one archive of one entry. -/
def zfsD : ZipFs := [(("a.zip").data, [(("img1.jpg").data, [1, 2, 3])])]

/-- A request for entry index 5 of a one-entry archive. -/
def photoOob : PhotoInfo := ⟨("a.zip").data, ("img9.jpg").data, 5⟩

/-- Witness for the claim-C7 theorem: the out-of-range request fails with
the message naming index 5 and archive `a.zip`. -/
theorem c7_oob_named_witness :
    image_data zfsD (fun _ _ => (("image/jpeg").data, [])) [photoOob]
      = .error (oobMsg 5 (("a.zip").data)) := by
  have hex : ∀ info ∈ [photoOob], ∃ entries,
      zipLookup zfsD info.zip_file_name = some entries := by
    intro info hinfo
    rw [List.mem_singleton] at hinfo
    subst hinfo
    exact ⟨_, rfl⟩
  have hbad : ∃ info ∈ [photoOob], ∃ entries,
      zipLookup zfsD info.zip_file_name = some entries ∧
      entries.length ≤ info.photo_index_in_zip := by
    exact ⟨photoOob, List.mem_singleton.mpr rfl,
      [(("img1.jpg").data, [1, 2, 3])], rfl, by decide⟩
  obtain ⟨info, hinfo, hb, herr, hmsg⟩ :=
    c7_oob_named zfsD (fun _ _ => (("image/jpeg").data, [])) [photoOob] hex hbad
  rw [List.mem_singleton] at hinfo
  subst hinfo
  exact herr
